import Mathlib

/-!
Verification of the HPL abstract syntax tree and its static analyses
(`src/hpl/ast.py`).  The Python classes are shallowly embedded as Lean
inductive types; the constructor-time validation, the bitmask type
discipline, the predicate structural checks, the property sanity check
and the schema-based type refinement are embedded as executable
functions returning `Except`.  In-place mutation of the (unshared,
tree-shaped) Python objects is modelled by functional rebuilding.
-/

namespace Hpl

/-! ## Error taxonomy

Modelled from the spec: the module `hpl.exceptions` (imported by
`ast.py` but not part of the given sources) provides the two fatal
error families of spec section 7, `HplSanityError` (structural or
scoping) and `HplTypeError`.  Python-level `ValueError` / `TypeError` /
`AssertionError` raised directly in `ast.py` are given their own
variants.  Error messages are carried as plain strings; the claims
depend only on which family is raised, never on the message text. -/

inductive HplError where
  | hplSanity (msg : String)
  | hplType (msg : String)
  | pyValueError
  | pyTypeError (msg : String)
  | pyAssertionError
  | pyKeyError
deriving Repr, DecidableEq

/-! ## Type lattice (bit flags, `ast.py` constants `T_BOOL` .. `T_ITEM`) -/

def T_BOOL : Nat := 0x1
def T_NUM : Nat := 0x2
def T_STR : Nat := 0x4
def T_ARR : Nat := 0x8
def T_RAN : Nat := 0x10
def T_SET : Nat := 0x20
def T_MSG : Nat := 0x40

def T_ANY : Nat := T_BOOL ||| T_NUM ||| T_STR ||| T_ARR ||| T_RAN ||| T_SET ||| T_MSG
def T_COMP : Nat := T_ARR ||| T_RAN ||| T_SET
def T_PRIM : Nat := T_BOOL ||| T_NUM ||| T_STR
def T_ROS : Nat := T_BOOL ||| T_NUM ||| T_STR ||| T_ARR ||| T_MSG
def T_ITEM : Nat := T_BOOL ||| T_NUM ||| T_STR ||| T_MSG

/-- Bit removal `x & ~t` of Python (arbitrary-precision AND-NOT):
since `x &&& t` selects a sub-bitmask of `x`, subtracting it removes
exactly the bits of `t` from `x`. -/
def bitRemove (x t : Nat) : Nat := x - (x &&& t)

/-! ## Literal values

`HplLiteral` holds an `int`, `float`, `bool` or string value
(`ast.py` line 2029).  Numbers are modelled as `Int`; the claims under
study never depend on float-specific literal behaviour. -/

inductive PyVal where
  | int (i : Int)
  | bool (b : Bool)
  | str (s : String)
deriving Repr, DecidableEq

/-- Exact-rational model of the Python floats used for the pattern time
bounds (`min_time` / `max_time`): an unnormalised fraction with the
field operations needed by `isclose`.  The denominator is positive for
every value built by `pyF`. -/
structure PyFloat where
  num : Int
  den : Nat
deriving Repr, DecidableEq

def pyF (n : Int) : PyFloat := ⟨n, 1⟩

def PyFloat.le (a b : PyFloat) : Bool := a.num * (b.den : Int) ≤ b.num * (a.den : Int)

def PyFloat.sub (a b : PyFloat) : PyFloat := ⟨a.num * b.den - b.num * a.den, a.den * b.den⟩

def PyFloat.mul (a b : PyFloat) : PyFloat := ⟨a.num * b.num, a.den * b.den⟩

def PyFloat.abs (a : PyFloat) : PyFloat := ⟨(a.num.natAbs : Int), a.den⟩

def PyFloat.max (a b : PyFloat) : PyFloat := if a.le b then b else a

/-! ## Message schema tokens

Modelled from the spec: the "ROS type tokens" consumed by refinement
are produced by an external message-schema registry (spec sections 1,
6) that is not part of this repository.  Per the interface of spec
section 6 a token exposes `is_message` / `is_array` / `is_number` /
`is_bool` / `is_string`, a `fields` and a `constants` mapping for
messages (a constant exposes its own `ros_type`), and for arrays an
element token (`type_token`) plus an optional bound used by
`contains_index`. -/

inductive RosType where
  | message (fields : List (String × RosType)) (constants : List (String × RosType))
  | rosArray (elem : RosType) (size : Option Nat)
  | number
  | boolean
  | rosString
deriving Repr

def lookupAssoc {α : Type} (l : List (String × α)) (k : String) : Option α :=
  match l with
  | [] => none
  | (k', v) :: rest => if k' = k then some v else lookupAssoc rest k

def RosType.isMessage : RosType → Bool
  | .message _ _ => true
  | _ => false

def RosType.isArray : RosType → Bool
  | .rosArray _ _ => true
  | _ => false

def RosType.isNumber : RosType → Bool
  | .number => true
  | _ => false

def RosType.isBool : RosType → Bool
  | .boolean => true
  | _ => false

def RosType.isString : RosType → Bool
  | .rosString => true
  | _ => false

def RosType.fieldsOf : RosType → List (String × RosType)
  | .message fields _ => fields
  | _ => []

def RosType.constantsOf : RosType → List (String × RosType)
  | .message _ constants => constants
  | _ => []

/-- Element token of an array (`t.type_token`); only consulted after an
`is_array` check. -/
def RosType.typeToken : RosType → RosType
  | .rosArray elem _ => elem
  | t => t

/-- Index-bound check `t.contains_index(i)`: an unbounded array accepts
every index, a bounded one accepts exactly the positions below the
bound. -/
def RosType.containsIndex : RosType → PyVal → Bool
  | .rosArray _ none, _ => true
  | .rosArray _ (some n), .int i => decide (0 ≤ i ∧ i < (n : Int))
  | .rosArray _ (some _), _ => false
  | _, _ => true

mutual
def rosEq : RosType → RosType → Bool
  | .message f c, .message f' c' => rosFieldsEq f f' && rosFieldsEq c c'
  | .rosArray e s, .rosArray e' s' => rosEq e e' && s == s'
  | .number, .number => true
  | .boolean, .boolean => true
  | .rosString, .rosString => true
  | _, _ => false
def rosFieldsEq : List (String × RosType) → List (String × RosType) → Bool
  | [], [] => true
  | (k, v) :: rest, (k', v') :: rest' => k == k' && rosEq v v' && rosFieldsEq rest rest'
  | _, _ => false
end

def optRosEq : Option RosType → Option RosType → Bool
  | none, none => true
  | some t, some t' => rosEq t t'
  | _, _ => false

/-! ## Expressions

One variant per concrete Python expression class.  Every variant
carries its (mutable, monotonically narrowed) `types` bitmask as first
field; `defined_at` of `HplVarReference` is modelled as a `Bool` flag
("some quantifier owns this variable") since only `is_defined` is ever
branched on. -/

inductive HplExpr where
  | literal (types : Nat) (token : String) (value : PyVal)
  | thisMsg (types : Nat) (rosType : Option RosType)
  | varRef (types : Nat) (token : String) (definedAt : Bool) (rosType : Option RosType)
  | setLit (types : Nat) (values : List HplExpr)
  | range (types : Nat) (minValue maxValue : HplExpr) (excludeMin excludeMax : Bool)
  | fieldAccess (types : Nat) (message : HplExpr) (field : String) (rosType : Option RosType)
  | arrayAccess (types : Nat) (array index : HplExpr) (rosType : Option RosType)
  | unaryOp (types : Nat) (operator : String) (operand : HplExpr)
  | binaryOp (types : Nat) (operator : String) (operand1 operand2 : HplExpr) (infx commutative : Bool)
  | funCall (types : Nat) (function : String) (arguments : List HplExpr)
  | quantifier (types : Nat) (quant qvar : String) (domain condition : HplExpr)
deriving Repr

def HplExpr.types : HplExpr → Nat
  | .literal t _ _ => t
  | .thisMsg t _ => t
  | .varRef t _ _ _ => t
  | .setLit t _ => t
  | .range t _ _ _ _ => t
  | .fieldAccess t _ _ _ => t
  | .arrayAccess t _ _ _ => t
  | .unaryOp t _ _ => t
  | .binaryOp t _ _ _ _ _ => t
  | .funCall t _ _ => t
  | .quantifier t _ _ _ _ => t

def HplExpr.withTypes : HplExpr → Nat → HplExpr
  | .literal _ tok v, t => .literal t tok v
  | .thisMsg _ rt, t => .thisMsg t rt
  | .varRef _ tok d rt, t => .varRef t tok d rt
  | .setLit _ vs, t => .setLit t vs
  | .range _ lo hi em ex, t => .range t lo hi em ex
  | .fieldAccess _ m f rt, t => .fieldAccess t m f rt
  | .arrayAccess _ a i rt, t => .arrayAccess t a i rt
  | .unaryOp _ op a, t => .unaryOp t op a
  | .binaryOp _ op a b ifx c, t => .binaryOp t op a b ifx c
  | .funCall _ f args, t => .funCall t f args
  | .quantifier _ q v d c, t => .quantifier t q v d c

def HplExpr.isValue : HplExpr → Bool
  | .literal .. | .thisMsg .. | .varRef .. | .setLit .. | .range .. => true
  | _ => false

def HplExpr.isAccessor : HplExpr → Bool
  | .fieldAccess .. | .arrayAccess .. => true
  | _ => false

def HplExpr.isField : HplExpr → Bool
  | .fieldAccess .. => true
  | _ => false

def HplExpr.isIndexed : HplExpr → Bool
  | .arrayAccess .. => true
  | _ => false

def HplExpr.isVariable : HplExpr → Bool
  | .varRef .. => true
  | _ => false

def HplExpr.isThisMsg : HplExpr → Bool
  | .thisMsg .. => true
  | _ => false

def HplExpr.isLiteral : HplExpr → Bool
  | .literal .. => true
  | _ => false

def HplExpr.isSet : HplExpr → Bool
  | .setLit .. => true
  | _ => false

def HplExpr.isRange : HplExpr → Bool
  | .range .. => true
  | _ => false

def HplExpr.isQuantifier : HplExpr → Bool
  | .quantifier .. => true
  | _ => false

/-- Variable name: the token without the leading `@` sigil
(`HplVarReference.name`). -/
def HplExpr.varName : HplExpr → String
  | .varRef _ tok _ _ => tok.drop 1
  | _ => ""

/-- The `message` / `array` parent slot of an accessor
(`HplArrayAccess.message` is an alias for `array`). -/
def HplExpr.accessParent : HplExpr → HplExpr
  | .fieldAccess _ m _ _ => m
  | .arrayAccess _ a _ _ => a
  | e => e

/-- Children in the order defined by each class's `children()` method;
this drives the pre-order `iterate()` traversal. -/
def HplExpr.childList : HplExpr → List HplExpr
  | .literal .. | .thisMsg .. | .varRef .. => []
  | .setLit _ vs => vs
  | .range _ lo hi _ _ => [lo, hi]
  | .fieldAccess _ m _ _ => [m]
  | .arrayAccess _ a i _ => [a, i]
  | .unaryOp _ _ a => [a]
  | .binaryOp _ _ a b _ _ => [a, b]
  | .funCall _ _ args => args
  | .quantifier _ _ _ d c => [d, c]

mutual
/-- Pre-order node list of `iterate()` (self first, then children left
to right, depth first, in the order given by `childList`). -/
def HplExpr.nodes : HplExpr → List HplExpr
  | .literal t tok v => [.literal t tok v]
  | .thisMsg t rt => [.thisMsg t rt]
  | .varRef t tok d rt => [.varRef t tok d rt]
  | .setLit t vs => .setLit t vs :: nodesList vs
  | .range t lo hi em ex => .range t lo hi em ex :: (HplExpr.nodes lo ++ HplExpr.nodes hi)
  | .fieldAccess t m f rt => .fieldAccess t m f rt :: HplExpr.nodes m
  | .arrayAccess t a i rt => .arrayAccess t a i rt :: (HplExpr.nodes a ++ HplExpr.nodes i)
  | .unaryOp t op a => .unaryOp t op a :: HplExpr.nodes a
  | .binaryOp t op a b ifx c => .binaryOp t op a b ifx c :: (HplExpr.nodes a ++ HplExpr.nodes b)
  | .funCall t f args => .funCall t f args :: nodesList args
  | .quantifier t q v d c => .quantifier t q v d c :: (HplExpr.nodes d ++ HplExpr.nodes c)
def nodesList : List HplExpr → List HplExpr
  | [] => []
  | e :: rest => HplExpr.nodes e ++ nodesList rest
end

/-! ## Stringification (`__str__`), used as the grouping key of
`HplPredicate._static_checks` -/

def joinSep (sep : String) : List String → String
  | [] => ""
  | [s] => s
  | s :: rest => s ++ sep ++ joinSep sep rest

mutual
def hplStr : HplExpr → String
  | .literal _ tok _ => tok
  | .thisMsg _ _ => ""
  | .varRef _ tok _ _ => tok
  | .setLit _ vs => "\x7b" ++ joinSep ", " (hplStrList vs) ++ "\x7d"
  | .range _ lo hi em ex =>
      (if em then "![" else "[") ++ hplStr lo ++ " to " ++ hplStr hi ++
        (if ex then "]!" else "]")
  | .fieldAccess _ m f _ =>
      let ms := hplStr m
      if ms = "" then f else ms ++ "." ++ f
  | .arrayAccess _ a i _ => hplStr a ++ "[" ++ hplStr i ++ "]"
  | .unaryOp _ op a =>
      let op' := if op = "not" then "not " else op
      "(" ++ op' ++ hplStr a ++ ")"
  | .binaryOp _ op a b ifx _ =>
      if ifx then "(" ++ hplStr a ++ " " ++ op ++ " " ++ hplStr b ++ ")"
      else op ++ "(" ++ hplStr a ++ ", " ++ hplStr b ++ ")"
  | .funCall _ f args => f ++ "(" ++ joinSep ", " (hplStrList args) ++ ")"
  | .quantifier _ q v d c =>
      "(" ++ q ++ " " ++ v ++ " in " ++ hplStr d ++ ": " ++ hplStr c ++ ")"
def hplStrList : List HplExpr → List String
  | [] => []
  | e :: rest => hplStr e :: hplStrList rest
end

/-! ## Type-lattice operations on nodes -/

/-- In-place `HplExpression.cast`: post-state plus optional error.  The
intersection is checked before it is assigned, so a failing cast leaves
the node untouched. -/
def castS (e : HplExpr) (t : Nat) : HplExpr × Option HplError :=
  let r := e.types &&& t
  if r = 0 then (e, some (.hplType ("expected but found: " ++ hplStr e)))
  else (e.withTypes r, none)

/-- `cast` in the `Except` monad, for use inside constructors (a raised
`HplTypeError` aborts the construction). -/
def castE (e : HplExpr) (t : Nat) : Except HplError HplExpr :=
  let r := e.types &&& t
  if r = 0 then .error (.hplType ("expected but found: " ++ hplStr e))
  else .ok (e.withTypes r)

/-- In-place `HplExpression.add_type` (pure widening, never fails). -/
def addTypeS (e : HplExpr) (t : Nat) : HplExpr :=
  e.withTypes (e.types ||| t)

/-- In-place `HplExpression.rem_type`: the removal `types & ~t` is
assigned first and only then checked, so a failing `rem_type` leaves
the node's type set empty. -/
def remTypeS (e : HplExpr) (t : Nat) : HplExpr × Option HplError :=
  let e' := e.withTypes (bitRemove e.types t)
  if e'.types = 0 then (e', some (.hplType ("no types left: " ++ hplStr e)))
  else (e', none)

def HplExpr.canBe (e : HplExpr) (t : Nat) : Bool := e.types &&& t ≠ 0

/-! ## Expression constructors

One `mk…` function per Python `__init__`; each performs the
constructor-time validation and the in-place type narrowing of the
source, returning the fully constructed node or the raised error. -/

/-- `HplLiteral.__init__`: the type set is the singleton matching the
value (booleans are tested before numbers, strings before the numeric
fallback, exactly as the `isinstance` cascade). -/
def mkLiteral (token : String) (value : PyVal) : HplExpr :=
  let t := match value with
    | .bool _ => T_BOOL
    | .str _ => T_STR
    | .int _ => T_NUM
  .literal t token value

/-- `HplThisMessage.__init__`: type set `{Message}`, no schema type. -/
def mkThisMessage : HplExpr := .thisMsg T_MSG none

/-- `HplVarReference.__init__`: type set starts at `T_ITEM`, no
definition site, no schema type. -/
def mkVarRef (token : String) : HplExpr := .varRef T_ITEM token false none

/-- Unary operator table `HplUnaryOperator._OPS`: input and output
masks. -/
def unOpTable : String → Option (Nat × Nat)
  | "-" => some (T_NUM, T_NUM)
  | "not" => some (T_BOOL, T_BOOL)
  | _ => none

/-- `HplUnaryOperator.__init__`: table lookup (a `KeyError` for unknown
operators), own type = output, operand cast to the input type. -/
def mkUnaryOp (op : String) (arg : HplExpr) : Except HplError HplExpr := do
  match unOpTable op with
  | none => .error .pyKeyError
  | some (tin, tout) => do
      let arg' ← castE arg tin
      .ok (.unaryOp tout op arg')

/-- Binary operator table `HplBinaryOperator._OPS`:
`(input1, input2, output, infix, commutative)`. -/
def binOpTable : String → Option (Nat × Nat × Nat × Bool × Bool)
  | "+" => some (T_NUM, T_NUM, T_NUM, true, true)
  | "-" => some (T_NUM, T_NUM, T_NUM, true, false)
  | "*" => some (T_NUM, T_NUM, T_NUM, true, true)
  | "/" => some (T_NUM, T_NUM, T_NUM, true, false)
  | "**" => some (T_NUM, T_NUM, T_NUM, true, false)
  | "implies" => some (T_BOOL, T_BOOL, T_BOOL, true, false)
  | "iff" => some (T_BOOL, T_BOOL, T_BOOL, true, true)
  | "or" => some (T_BOOL, T_BOOL, T_BOOL, true, true)
  | "and" => some (T_BOOL, T_BOOL, T_BOOL, true, true)
  | "=" => some (T_PRIM, T_PRIM, T_BOOL, true, true)
  | "!=" => some (T_PRIM, T_PRIM, T_BOOL, true, true)
  | "<" => some (T_NUM, T_NUM, T_BOOL, true, false)
  | "<=" => some (T_NUM, T_NUM, T_BOOL, true, false)
  | ">" => some (T_NUM, T_NUM, T_BOOL, true, false)
  | ">=" => some (T_NUM, T_NUM, T_BOOL, true, false)
  | "in" => some (T_PRIM, T_SET ||| T_RAN, T_BOOL, true, false)
  | _ => none

/-- `HplBinaryOperator.__init__`: table lookup, own type = output,
both operands cast to their input types (no cross-operand
unification). -/
def mkBinaryOp (op : String) (arg1 arg2 : HplExpr) : Except HplError HplExpr := do
  match binOpTable op with
  | none => .error .pyKeyError
  | some (tin1, tin2, tout, ifx, comm) => do
      let a ← castE arg1 tin1
      let b ← castE arg2 tin2
      .ok (.binaryOp tout op a b ifx comm)

def castListE (t : Nat) : List HplExpr → Except HplError (List HplExpr)
  | [] => .ok []
  | e :: rest => do
      let e' ← castE e t
      let rest' ← castListE t rest
      .ok (e' :: rest')

/-- `HplSet.__init__`: own type `{Set}`, every element cast to
`T_PRIM`. -/
def mkSet (values : List HplExpr) : Except HplError HplExpr := do
  let values' ← castListE T_PRIM values
  .ok (.setLit T_SET values')

/-- `HplRange.__init__`: own type `{Range}`, both bounds cast to
`T_NUM`. -/
def mkRange (lb ub : HplExpr) (excMin excMax : Bool) : Except HplError HplExpr := do
  let lb' ← castE lb T_NUM
  let ub' ← castE ub T_NUM
  .ok (.range T_RAN lb' ub' excMin excMax)

/-- `HplFieldAccess.__init__`: own type `T_ROS`, parent cast to
`{Message}`. -/
def mkFieldAccess (msg : HplExpr) (field : String) : Except HplError HplExpr := do
  let msg' ← castE msg T_MSG
  .ok (.fieldAccess T_ROS msg' field none)

/-- `HplArrayAccess.__init__`: multi-dimensional access is rejected
first, own type `T_ITEM`, parent cast to `{Array}`, index cast to
`{Number}`. -/
def mkArrayAccess (array index : HplExpr) : Except HplError HplExpr := do
  if array.isAccessor && array.isIndexed then
    .error (.hplType ("multi-dimensional array access: " ++ hplStr array))
  else do
    let array' ← castE array T_ARR
    let index' ← castE index T_NUM
    .ok (.arrayAccess T_ITEM array' index' none)

/-! ## Built-in function calls -/

/-- One overload: parameter masks plus the variadic flag
(`Parameters`). -/
structure Params where
  typeMasks : List Nat
  varArgs : Bool
deriving Repr

/-- `FunctionType`: overloads in declaration order plus output mask. -/
structure FunctionSig where
  overloads : List Params
  output : Nat
deriving Repr

/-- Fixed builtin table `HplFunctionCall._BUILTINS`. -/
def builtinTable : String → Option FunctionSig
  | "abs" => some ⟨[⟨[T_NUM], false⟩], T_NUM⟩
  | "bool" => some ⟨[⟨[T_PRIM], false⟩], T_BOOL⟩
  | "int" => some ⟨[⟨[T_PRIM], false⟩], T_NUM⟩
  | "float" => some ⟨[⟨[T_PRIM], false⟩], T_NUM⟩
  | "str" => some ⟨[⟨[T_PRIM], false⟩], T_STR⟩
  | "len" => some ⟨[⟨[T_COMP], false⟩], T_NUM⟩
  | "sum" => some ⟨[⟨[T_COMP], false⟩], T_NUM⟩
  | "prod" => some ⟨[⟨[T_COMP], false⟩], T_NUM⟩
  | "sqrt" => some ⟨[⟨[T_NUM], false⟩], T_NUM⟩
  | "ceil" => some ⟨[⟨[T_NUM], false⟩], T_NUM⟩
  | "floor" => some ⟨[⟨[T_NUM], false⟩], T_NUM⟩
  | "log" => some ⟨[⟨[T_NUM, T_NUM], false⟩], T_NUM⟩
  | "sin" => some ⟨[⟨[T_NUM], false⟩], T_NUM⟩
  | "cos" => some ⟨[⟨[T_NUM], false⟩], T_NUM⟩
  | "tan" => some ⟨[⟨[T_NUM], false⟩], T_NUM⟩
  | "asin" => some ⟨[⟨[T_NUM], false⟩], T_NUM⟩
  | "acos" => some ⟨[⟨[T_NUM], false⟩], T_NUM⟩
  | "atan" => some ⟨[⟨[T_NUM], false⟩], T_NUM⟩
  | "atan2" => some ⟨[⟨[T_NUM, T_NUM], false⟩], T_NUM⟩
  | "deg" => some ⟨[⟨[T_NUM], false⟩], T_NUM⟩
  | "rad" => some ⟨[⟨[T_NUM], false⟩], T_NUM⟩
  | "x" => some ⟨[⟨[T_MSG], false⟩], T_NUM⟩
  | "y" => some ⟨[⟨[T_MSG], false⟩], T_NUM⟩
  | "z" => some ⟨[⟨[T_MSG], false⟩], T_NUM⟩
  | "max" => some ⟨[⟨[T_COMP], false⟩, ⟨[T_NUM, T_NUM], true⟩], T_NUM⟩
  | "min" => some ⟨[⟨[T_COMP], false⟩, ⟨[T_NUM, T_NUM], true⟩], T_NUM⟩
  | "gcd" => some ⟨[⟨[T_COMP], false⟩, ⟨[T_NUM, T_NUM], true⟩], T_NUM⟩
  | "roll" => some ⟨[⟨[T_MSG], false⟩, ⟨[T_NUM, T_NUM, T_NUM, T_NUM], false⟩], T_NUM⟩
  | "pitch" => some ⟨[⟨[T_MSG], false⟩, ⟨[T_NUM, T_NUM, T_NUM, T_NUM], false⟩], T_NUM⟩
  | "yaw" => some ⟨[⟨[T_MSG], false⟩, ⟨[T_NUM, T_NUM, T_NUM, T_NUM], false⟩], T_NUM⟩
  | _ => none

def allCanBe : List Nat → List HplExpr → Bool
  | [], [] => true
  | t :: ts, a :: args => a.canBe t && allCanBe ts args
  | _, _ => false

/-- The effective parameter-mask list of a variadic overload: the last
declared mask is repeated for the extra arguments (`_match_with_var_args`
loops over the first `nparams` masks, then repeats `types[-1]`). -/
def extendedMasks (p : Params) (nargs : Nat) : List Nat :=
  p.typeMasks ++ List.replicate (nargs - p.typeMasks.length) (p.typeMasks.getLastD 0)

/-- Pre-check of one overload (`_match_normal` / the first phase of
`_match_with_var_args`): no mutation, only `can_be` tests. -/
def overloadMatches (p : Params) (args : List HplExpr) : Bool :=
  if p.varArgs then
    decide (p.typeMasks.length ≤ args.length) && allCanBe (extendedMasks p args.length) args
  else
    allCanBe p.typeMasks args

/-- Commit phase: every argument cast to its mask (cannot fail once
`overloadMatches` holds, but the cast checks are kept faithfully). -/
def commitOverload (p : Params) (args : List HplExpr) : Except HplError (List HplExpr) :=
  if p.varArgs then castListPairs (extendedMasks p args.length) args
  else castListPairs p.typeMasks args
where
  castListPairs : List Nat → List HplExpr → Except HplError (List HplExpr)
    | [], [] => .ok []
    | t :: ts, a :: args => do
        let a' ← castE a t
        let rest ← castListPairs ts args
        .ok (a' :: rest)
    | _, _ => .error .pyAssertionError

/-- `_type_check_args`: overloads are tried in declaration order; the
first whose `can_be` pre-check passes is committed; otherwise a type
error listing the signatures is raised. -/
def tryOverloads (f : String) (args : List HplExpr) : List Params → Except HplError (List HplExpr)
  | [] => .error (.hplType ("function " ++ f ++ " expects other argument types"))
  | p :: rest =>
      if overloadMatches p args then commitOverload p args
      else tryOverloads f args rest

/-- `HplFunctionCall.__init__`: unknown functions raise a type error;
own type = the signature's output; arguments resolved against the
overloads. -/
def mkFunctionCall (f : String) (args : List HplExpr) : Except HplError HplExpr := do
  match builtinTable f with
  | none => .error (.hplType ("undefined function " ++ f))
  | some sig => do
      let args' ← tryOverloads f args sig.overloads
      .ok (.funCall sig.output f args')

/-! ## Quantifiers -/

/-- Subtype mask of a compound value (`HplSet.subtypes` is the union of
the element type sets, `HplRange.subtypes` is `{Number}`). -/
def subtypesOf : HplExpr → Nat
  | .setLit _ vs => (vs.map HplExpr.types).foldl (· ||| ·) 0
  | .range _ _ _ _ _ => T_NUM
  | _ => T_PRIM

mutual
/-- `HplQuantifier._check_domain_vars` walk: every variable occurrence
in the domain must be unbound (`assert not obj.is_defined`) and must
not be the quantified variable. -/
def domainVarsCheck (v : String) : HplExpr → Except HplError Unit
  | .varRef _ tok d _ =>
      if d then .error .pyAssertionError
      else if tok.drop 1 = v then
        .error (.hplSanity ("cannot reference quantified variable " ++ v ++ " in the domain"))
      else .ok ()
  | .literal _ _ _ => .ok ()
  | .thisMsg _ _ => .ok ()
  | .setLit _ vs => domainVarsCheckList v vs
  | .range _ lo hi _ _ => do
      domainVarsCheck v lo
      domainVarsCheck v hi
  | .fieldAccess _ m _ _ => domainVarsCheck v m
  | .arrayAccess _ a i _ => do
      domainVarsCheck v a
      domainVarsCheck v i
  | .unaryOp _ _ a => domainVarsCheck v a
  | .binaryOp _ _ a b _ _ => do
      domainVarsCheck v a
      domainVarsCheck v b
  | .funCall _ _ args => domainVarsCheckList v args
  | .quantifier _ _ _ d c => do
      domainVarsCheck v d
      domainVarsCheck v c
def domainVarsCheckList (v : String) : List HplExpr → Except HplError Unit
  | [] => .ok ()
  | e :: rest => do
      domainVarsCheck v e
      domainVarsCheckList v rest
end

mutual
/-- `HplQuantifier._check_expression_vars` walk over the condition:
every occurrence of the quantified variable is bound (an already bound
one is a sanity error unless `shadow` is set), cast to the domain's
element mask, and counted. -/
def bindVar (v : String) (t : Nat) (shadow : Bool) : HplExpr → Except HplError (HplExpr × Nat)
  | .varRef ty tok d rt =>
      if tok.drop 1 = v then
        if d && !shadow then
          .error (.hplSanity ("multiple definitions of variable " ++ v))
        else
          -- defined_at := id(quantifier); then `_type_check(obj, t)`
          let r := ty &&& t
          if r = 0 then .error (.hplType ("expected but found: " ++ tok))
          else .ok (.varRef r tok true rt, 1)
      else .ok (.varRef ty tok d rt, 0)
  | .literal ty tok val => .ok (.literal ty tok val, 0)
  | .thisMsg ty rt => .ok (.thisMsg ty rt, 0)
  | .setLit ty vs => do
      let (vs', n) ← bindVarList v t shadow vs
      .ok (.setLit ty vs', n)
  | .range ty lo hi em ex => do
      let (lo', n1) ← bindVar v t shadow lo
      let (hi', n2) ← bindVar v t shadow hi
      .ok (.range ty lo' hi' em ex, n1 + n2)
  | .fieldAccess ty m f rt => do
      let (m', n) ← bindVar v t shadow m
      .ok (.fieldAccess ty m' f rt, n)
  | .arrayAccess ty a i rt => do
      let (a', n1) ← bindVar v t shadow a
      let (i', n2) ← bindVar v t shadow i
      .ok (.arrayAccess ty a' i' rt, n1 + n2)
  | .unaryOp ty op a => do
      let (a', n) ← bindVar v t shadow a
      .ok (.unaryOp ty op a', n)
  | .binaryOp ty op a b ifx c => do
      let (a', n1) ← bindVar v t shadow a
      let (b', n2) ← bindVar v t shadow b
      .ok (.binaryOp ty op a' b' ifx c, n1 + n2)
  | .funCall ty f args => do
      let (args', n) ← bindVarList v t shadow args
      .ok (.funCall ty f args', n)
  | .quantifier ty q qv d c => do
      let (d', n1) ← bindVar v t shadow d
      let (c', n2) ← bindVar v t shadow c
      .ok (.quantifier ty q qv d' c', n1 + n2)
def bindVarList (v : String) (t : Nat) (shadow : Bool) :
    List HplExpr → Except HplError (List HplExpr × Nat)
  | [] => .ok ([], 0)
  | e :: rest => do
      let (e', n1) ← bindVar v t shadow e
      let (rest', n2) ← bindVarList v t shadow rest
      .ok (e' :: rest', n1 + n2)
end

/-- `HplQuantifier.__init__`: own type `{Boolean}`, domain cast to
`T_COMP`, condition cast to `T_BOOL`, then the two variable walks. -/
def mkQuantifier (qt v : String) (dom p : HplExpr) (shadow : Bool) :
    Except HplError HplExpr := do
  let dom' ← castE dom T_COMP
  let p' ← castE p T_BOOL
  domainVarsCheck v dom'
  let t := if dom'.isValue && (dom'.isSet || dom'.isRange) then subtypesOf dom' else T_PRIM
  let (p'', used) ← bindVar v t shadow p'
  if used = 0 then .error (.hplSanity ("quantified variable " ++ v ++ " is never used"))
  else .ok (.quantifier T_BOOL qt v dom' p'')

/-! ## Predicates

`HplPredicate._static_checks` groups the accessor and variable nodes of
the condition by their canonical string form, runs the forward/backward
narrowing over each group and then requires at least one group headed
by a direct field access on the implicit message. -/

/-- Nodes collected into the reference table: accessors, and values
that are variables. -/
def refKeyed (e : HplExpr) : Bool := e.isAccessor || (e.isValue && e.isVariable)

/-- Keys of the reference table in insertion order (first pre-order
occurrence; Python dicts preserve insertion order). -/
def collectRefKeys (e : HplExpr) : List String :=
  (HplExpr.nodes e).foldl
    (fun acc n =>
      if refKeyed n then
        let k := hplStr n
        if k ∈ acc then acc else acc ++ [k]
      else acc) []

/-- The `types` masks of a key's reference group, in pre-order. -/
def typesForKey (k : String) (e : HplExpr) : List Nat :=
  (HplExpr.nodes e).filterMap
    (fun n => if refKeyed n && hplStr n = k then some n.types else none)

/-- One pass of `_all_refs_same_type`: each reference is cast against
the running `final_type`, which then becomes the reference's narrowed
mask.  Returns the per-reference results and the last `final_type`. -/
def narrowPass (final : Nat) : List Nat → Except HplError (List Nat × Nat)
  | [] => .ok ([], final)
  | t :: ts =>
      let r := t &&& final
      if r = 0 then .error (.hplType "incompatible types in reference group")
      else do
        let (rest, fin) ← narrowPass r ts
        .ok (r :: rest, fin)

/-- Root step of the write-back: when the node belongs to key `k`, its
new mask is the next unconsumed value. -/
def consumeRoot (k : String) (vals : List Nat) (e : HplExpr) : Nat × List Nat :=
  if refKeyed e && hplStr e = k then
    match vals with
    | [] => (e.types, vals)
    | v :: rest => (v, rest)
  else (e.types, vals)

mutual
/-- Write the masks `vals` back into the nodes of key `k`, consuming
them in pre-order; returns the rebuilt tree and the unconsumed masks. -/
def writeTypesForKey (k : String) (vals : List Nat) : HplExpr → HplExpr × List Nat
  | .literal t tok x =>
      let (t', vals') := consumeRoot k vals (.literal t tok x)
      (.literal t' tok x, vals')
  | .thisMsg t rt =>
      let (t', vals') := consumeRoot k vals (.thisMsg t rt)
      (.thisMsg t' rt, vals')
  | .varRef t tok d rt =>
      let (t', vals') := consumeRoot k vals (.varRef t tok d rt)
      (.varRef t' tok d rt, vals')
  | .setLit t vs =>
      let (t', vals') := consumeRoot k vals (.setLit t vs)
      let (vs', rest) := writeTypesForKeyList k vals' vs
      (.setLit t' vs', rest)
  | .range t lo hi em ex =>
      let (t', vals') := consumeRoot k vals (.range t lo hi em ex)
      let (lo', r1) := writeTypesForKey k vals' lo
      let (hi', r2) := writeTypesForKey k r1 hi
      (.range t' lo' hi' em ex, r2)
  | .fieldAccess t m f rt =>
      let (t', vals') := consumeRoot k vals (.fieldAccess t m f rt)
      let (m', r1) := writeTypesForKey k vals' m
      (.fieldAccess t' m' f rt, r1)
  | .arrayAccess t a i rt =>
      let (t', vals') := consumeRoot k vals (.arrayAccess t a i rt)
      let (a', r1) := writeTypesForKey k vals' a
      let (i', r2) := writeTypesForKey k r1 i
      (.arrayAccess t' a' i' rt, r2)
  | .unaryOp t op a =>
      let (t', vals') := consumeRoot k vals (.unaryOp t op a)
      let (a', r1) := writeTypesForKey k vals' a
      (.unaryOp t' op a', r1)
  | .binaryOp t op a b ifx c =>
      let (t', vals') := consumeRoot k vals (.binaryOp t op a b ifx c)
      let (a', r1) := writeTypesForKey k vals' a
      let (b', r2) := writeTypesForKey k r1 b
      (.binaryOp t' op a' b' ifx c, r2)
  | .funCall t f args =>
      let (t', vals') := consumeRoot k vals (.funCall t f args)
      let (args', rest) := writeTypesForKeyList k vals' args
      (.funCall t' f args', rest)
  | .quantifier t q v d c =>
      let (t', vals') := consumeRoot k vals (.quantifier t q v d c)
      let (d', r1) := writeTypesForKey k vals' d
      let (c', r2) := writeTypesForKey k r1 c
      (.quantifier t' q v d' c', r2)
def writeTypesForKeyList (k : String) (vals : List Nat) :
    List HplExpr → List HplExpr × List Nat
  | [] => ([], vals)
  | e :: rest =>
      let (e', r1) := writeTypesForKey k vals e
      let (rest', r2) := writeTypesForKeyList k r1 rest
      (e' :: rest', r2)
end

/-- Narrowing of one reference group (`_all_refs_same_type` body for a
single key): the forward pass over the group's masks in pre-order, the
backward pass over the results in reverse, and the write-back of the
per-reference outcomes. -/
def groupNarrow (e : HplExpr) (k : String) : Except HplError HplExpr := do
  let ts := typesForKey k e
  let (ts1, f1) ← narrowPass T_ANY ts
  let (ts2, _) ← narrowPass f1 ts1.reverse
  .ok (writeTypesForKey k ts2.reverse e).1

def groupNarrowAll (ks : List String) (e : HplExpr) : Except HplError HplExpr :=
  match ks with
  | [] => .ok e
  | k :: rest => do
      let e' ← groupNarrow e k
      groupNarrowAll rest e'

/-- First reference of a key's group in pre-order; `_some_field_refs`
breaks out of a group at the first reference that fails a condition, so
only the head of each group decides. -/
def firstRefForKey (k : String) (e : HplExpr) : Option HplExpr :=
  (HplExpr.nodes e).find? (fun n => refKeyed n && hplStr n = k)

/-- `_some_field_refs` conditions for one reference, in source order:
not an accessor / indexed / parent not a value → try the next group;
`assert ref.message.is_reference`; parent not the implicit message →
next group; otherwise the predicate references an own field. -/
def someFieldRefs (e : HplExpr) : List String → Except HplError Unit
  | [] => .error (.hplSanity "there are no references to any fields of this message")
  | k :: rest =>
      match firstRefForKey k e with
      | none => someFieldRefs e rest
      | some r =>
          if !r.isAccessor then someFieldRefs e rest
          else if r.isIndexed then someFieldRefs e rest
          else if !r.accessParent.isValue then someFieldRefs e rest
          else if !(r.accessParent.isThisMsg || r.accessParent.isVariable) then
            .error .pyAssertionError
          else if !r.accessParent.isThisMsg then someFieldRefs e rest
          else .ok ()

/-- Predicate objects: `HplPredicate` (a wrapped Boolean condition),
`HplVacuousTruth` and `HplContradiction`. -/
inductive HplPred where
  | pred (condition : HplExpr)
  | vacuous
  | contradiction
deriving Repr

/-- `HplPredicate.__init__`: the expression must be able to be Boolean,
then `_static_checks` runs the group narrowing and the own-field-
reference requirement. -/
def mkPredicate (expr : HplExpr) : Except HplError HplPred := do
  if expr.types &&& T_BOOL = 0 then
    .error (.hplType ("not a boolean expression: " ++ hplStr expr))
  else do
    let e' ← groupNarrowAll (collectRefKeys expr) expr
    someFieldRefs e' (collectRefKeys e')
    .ok (.pred e')

/-! ## Events -/

mutual
/-- `HplPredicate.replace_self_reference`: a field access whose parent
is a variable naming the event's own alias gets the fresh
`HplThisMessage` (cast to `{Message}`, which never narrows it) as its
parent. -/
def replaceSelfRef (aliasN : String) : HplExpr → HplExpr
  | .literal t tok v => .literal t tok v
  | .thisMsg t rt => .thisMsg t rt
  | .varRef t tok d rt => .varRef t tok d rt
  | .setLit t vs => .setLit t (replaceSelfRefList aliasN vs)
  | .range t lo hi em ex => .range t (replaceSelfRef aliasN lo) (replaceSelfRef aliasN hi) em ex
  | .fieldAccess t m f rt =>
      if m.isValue && m.isVariable && m.varName = aliasN then
        .fieldAccess t mkThisMessage f rt
      else
        .fieldAccess t (replaceSelfRef aliasN m) f rt
  | .arrayAccess t a i rt => .arrayAccess t (replaceSelfRef aliasN a) (replaceSelfRef aliasN i) rt
  | .unaryOp t op a => .unaryOp t op (replaceSelfRef aliasN a)
  | .binaryOp t op a b ifx c => .binaryOp t op (replaceSelfRef aliasN a) (replaceSelfRef aliasN b) ifx c
  | .funCall t f args => .funCall t f (replaceSelfRefList aliasN args)
  | .quantifier t q v d c => .quantifier t q v (replaceSelfRef aliasN d) (replaceSelfRef aliasN c)
def replaceSelfRefList (aliasN : String) : List HplExpr → List HplExpr
  | [] => []
  | e :: rest => replaceSelfRef aliasN e :: replaceSelfRefList aliasN rest
end

def predReplaceSelfRef (aliasN : String) : HplPred → HplPred
  | .pred c => .pred (replaceSelfRef aliasN c)
  | .vacuous => .vacuous
  | .contradiction => .contradiction

/-- Events: `HplSimpleEvent` (PUBLISH = 1) or `HplEventDisjunction`. -/
inductive HplEvent where
  | simple (eventType : Nat) (predicate : HplPred) (topic : String)
      (aliasN : Option String) (msgType : Option RosType)
  | disjunction (event1 event2 : HplEvent)
deriving Repr

/-- `HplSimpleEvent.__init__`: the event type must be `PUBLISH`; a
truthy aliasN (present and non-empty) triggers the self-reference
rewrite inside the predicate. -/
def mkSimpleEvent (eventType : Nat) (predicate : HplPred) (topic : String)
    (msgType : Option RosType) (aliasN : Option String) : Except HplError HplEvent :=
  if eventType ≠ 1 then .error .pyValueError
  else
    let p' := match aliasN with
      | some a => if a = "" then predicate else predReplaceSelfRef a predicate
      | none => predicate
    .ok (.simple eventType p' topic aliasN msgType)

/-- `aliases()`: the alias tuple of a simple event (empty when the
alias slot is `None`), concatenated across disjunctions. -/
def eventAliases : HplEvent → List String
  | .simple _ _ _ none _ => []
  | .simple _ _ _ (some a) _ => [a]
  | .disjunction e1 e2 => eventAliases e1 ++ eventAliases e2

/-- External references of an expression tree: names of variables that
occur as the parent of a field access (`external_references` collects
only `obj.is_field and obj.message.is_value and obj.message.is_variable`
nodes).  The result models a Python set; only membership and emptiness
are ever consulted. -/
def exprExtRefs (e : HplExpr) : List String :=
  (HplExpr.nodes e).filterMap
    (fun n =>
      if n.isAccessor && n.isField && n.accessParent.isValue && n.accessParent.isVariable then
        some n.accessParent.varName
      else none)

def predExtRefs : HplPred → List String
  | .pred c => exprExtRefs c
  | .vacuous => []
  | .contradiction => []

/-- `HplSimpleEvent.external_references`: the field-access-parent
variables of the predicate, with the event's own alias discarded;
unioned across disjunctions. -/
def eventExtRefs : HplEvent → List String
  | .simple _ p _ aliasN _ =>
      match aliasN with
      | some a => (predExtRefs p).filter (fun r => r ≠ a)
      | none => predExtRefs p
  | .disjunction e1 e2 => eventExtRefs e1 ++ eventExtRefs e2

/-- Topic collection of `HplEventDisjunction._check_unique_topics`: the
manual stack pops the most recently pushed event, which visits the
right subtree first; a repeated topic raises the duplicate-topic sanity
error. -/
def collectTopics : HplEvent → List String → Except HplError (List String)
  | .simple _ _ topic _ _, acc =>
      if topic ∈ acc then
        .error (.hplSanity ("topic " ++ topic ++ " appears multiple times in an event disjunction"))
      else .ok (topic :: acc)
  | .disjunction e1 e2, acc => do
      let acc' ← collectTopics e2 acc
      collectTopics e1 acc'

/-- `HplEventDisjunction.__init__` (both arguments are events by
typing; the topic uniqueness check runs over the combined tree). -/
def mkEventDisjunction (event1 event2 : HplEvent) : Except HplError HplEvent := do
  let _ ← collectTopics (.disjunction event1 event2) []
  .ok (.disjunction event1 event2)

/-! ## Scope, pattern, property -/

/-- `HplScope`: scope type constants `GLOBAL = 1`, `AFTER_UNTIL = 2`,
`AFTER = 3`, `UNTIL = 4`. -/
structure HplScope where
  scopeType : Nat
  activator : Option HplEvent
  terminator : Option HplEvent
deriving Repr

/-- `HplScope.__init__` validation: global scopes take neither slot,
`after` takes no terminator, `until` takes no activator, and any other
scope code than `AFTER_UNTIL` is rejected. -/
def mkScope (scope : Nat) (activator terminator : Option HplEvent) :
    Except HplError HplScope :=
  if scope = 1 then
    if activator.isSome then .error .pyValueError
    else if terminator.isSome then .error .pyValueError
    else .ok ⟨scope, activator, terminator⟩
  else if scope = 3 then
    if terminator.isSome then .error .pyValueError
    else .ok ⟨scope, activator, terminator⟩
  else if scope = 4 then
    if activator.isSome then .error .pyValueError
    else .ok ⟨scope, activator, terminator⟩
  else if scope ≠ 2 then .error .pyValueError
  else .ok ⟨scope, activator, terminator⟩

/-- `HplPattern`: pattern type constants `EXISTENCE = 1`, `ABSENCE = 2`,
`RESPONSE = 3`, `REQUIREMENT = 4`, `PREVENTION = 5`.  `max_time = none`
models `INF`. -/
structure HplPattern where
  patternType : Nat
  behaviour : HplEvent
  trigger : Option HplEvent
  minTime : PyFloat
  maxTime : Option PyFloat
deriving Repr

/-- `HplPattern.__init__` validation: existence and absence patterns
must not carry a trigger; any pattern code outside the five constants
is rejected; nothing else is checked. -/
def mkPattern (pt : Nat) (behaviour : HplEvent) (trigger : Option HplEvent)
    (minTime : PyFloat) (maxTime : Option PyFloat) : Except HplError HplPattern :=
  if pt = 1 ∨ pt = 2 then
    if trigger.isSome then .error .pyValueError
    else .ok ⟨pt, behaviour, trigger, minTime, maxTime⟩
  else if pt ≠ 3 ∧ pt ≠ 4 ∧ pt ≠ 5 then .error .pyValueError
  else .ok ⟨pt, behaviour, trigger, minTime, maxTime⟩

/-- `HplProperty` (the metadata map is opaque and never consulted by
the modelled analyses, so it is omitted). -/
structure HplProperty where
  scope : HplScope
  pattern : HplPattern
deriving Repr

/-! ## Property sanity check (`HplProperty.sanity_check`) -/

/-- `_check_refs_defined`: every external reference must be an
available alias. -/
def checkRefsDefined (refs available : List String) : Except HplError Unit :=
  match refs with
  | [] => .ok ()
  | r :: rest =>
      if r ∈ available then checkRefsDefined rest available
      else .error (.hplSanity ("reference to undefined event: " ++ r))

/-- `_check_duplicates`: no alias of this event may already be
available. -/
def checkDuplicates (aliases available : List String) : Except HplError Unit :=
  match aliases with
  | [] => .ok ()
  | a :: rest =>
      if a ∈ available then .error (.hplSanity ("duplicate alias: " ++ a))
      else checkDuplicates rest available

/-- `_check_activator`: an activator must contain no external
references at all; its aliases form the initial available set. -/
def checkActivator (p : HplProperty) : Except HplError (List String) :=
  match p.scope.activator with
  | some act =>
      if eventExtRefs act = [] then .ok (eventAliases act)
      else .error (.hplSanity "references to undefined events")
  | none => .ok []

/-- `_check_trigger` (`assert a is not None` is an assertion
failure when the trigger slot is empty). -/
def checkTrigger (p : HplProperty) (available : List String) :
    Except HplError (List String) :=
  match p.pattern.trigger with
  | none => .error .pyAssertionError
  | some a => do
      checkRefsDefined (eventExtRefs a) available
      checkDuplicates (eventAliases a) available
      .ok (eventAliases a ++ available)

/-- `_check_behaviour`. -/
def checkBehaviour (p : HplProperty) (available : List String) :
    Except HplError (List String) := do
  checkRefsDefined (eventExtRefs p.pattern.behaviour) available
  checkDuplicates (eventAliases p.pattern.behaviour) available
  .ok (eventAliases p.pattern.behaviour ++ available)

/-- `_check_terminator`: checked against the available set it is
given — `sanity_check` passes the *initial* aliases, not the extended
set. -/
def checkTerminator (p : HplProperty) (available : List String) :
    Except HplError Unit :=
  match p.scope.terminator with
  | some q => do
      checkRefsDefined (eventExtRefs q) available
      checkDuplicates (eventAliases q) available
  | none => .ok ()

/-- `HplProperty.sanity_check`: activator first; then the pattern's
primary (cause) event against the initial aliases and the dependent
event against the extended set; the terminator is checked against the
initial aliases only.  An unexpected pattern code hits the
`assert False` branch. -/
def sanityCheck (p : HplProperty) : Except HplError Unit := do
  let initial ← checkActivator p
  if p.pattern.patternType = 2 ∨ p.pattern.patternType = 1 then do
    let _ ← checkBehaviour p initial
    checkTerminator p initial
  else if p.pattern.patternType = 4 then do
    let aliases ← checkBehaviour p initial
    let _ ← checkTrigger p aliases
    checkTerminator p initial
  else if p.pattern.patternType = 3 ∨ p.pattern.patternType = 5 then do
    let aliases ← checkTrigger p initial
    let _ ← checkBehaviour p aliases
    checkTerminator p initial
  else .error .pyAssertionError

/-! ## Type refinement against the message schema
(`HplPredicate.refine_types` / `_refine_type`) -/

/-- Bitmask corresponding to a schema token's kind, used for the
per-chain-node cast in `_refine_type`. -/
def maskForRos (t : RosType) : Nat :=
  if t.isMessage then T_MSG
  else if t.isArray then T_ARR
  else if t.isNumber then T_NUM
  else if t.isBool then T_BOOL
  else T_STR

/-- Literal-index bound check of `_refine_type`
(`i.is_value and i.is_literal and not t.contains_index(i.value)`). -/
def indexCheck (t : RosType) (i : HplExpr) : Except HplError Unit :=
  match i with
  | .literal _ _ v =>
      if !t.containsIndex v then .error (.hplType "array index out of range")
      else .ok ()
  | _ => .ok ()

def castMask (ty mask : Nat) : Except HplError Nat :=
  let r := ty &&& mask
  if r = 0 then .error (.hplType "refinement cast failed") else .ok r

/-- Field step of the chain walk: the guard
`not (t.is_message or field in t.fields or field in t.constants)`
raises the ros-field type error; then the field's (or constant's)
schema type becomes the new walk type, with a missing field on a
message hitting the `assert expr.field in t.constants`. -/
def fieldStep (t : RosType) (field : String) : Except HplError RosType :=
  if !(t.isMessage || (lookupAssoc t.fieldsOf field).isSome
        || (lookupAssoc t.constantsOf field).isSome) then
    .error (.hplType ("no such field in ROS type: " ++ field))
  else
    match lookupAssoc t.fieldsOf field with
    | some u => .ok u
    | none =>
        match lookupAssoc t.constantsOf field with
        | some u => .ok u
        | none => .error .pyAssertionError

/-- Base of an accessor chain (`_refine_type` preamble): the implicit
message resolves to the event's topic schema, a variable to the aliases
map (a missing alias is a *sanity* error); the schema token must be a
message (`assert t.is_message`); the base's `ros_type` is assigned. -/
def refineBase (rt : RosType) (al : List (String × RosType)) :
    HplExpr → Except HplError (HplExpr × RosType)
  | .thisMsg ty _ =>
      if rt.isMessage then .ok (.thisMsg ty (some rt), rt)
      else .error .pyAssertionError
  | .varRef ty tok d _ =>
      (match lookupAssoc al (tok.drop 1) with
       | none => .error (.hplSanity ("undefined message alias: " ++ tok.drop 1))
       | some t =>
          if t.isMessage then .ok (.varRef ty tok d (some t), t)
          else .error .pyAssertionError)
  | _ => .error .pyAssertionError

/-- Chain walk of `_refine_type`, base towards leaf: each accessor node
advances the schema type (field lookup or array element), narrows its
own bitmask to the schema kind and records the schema type in
`ros_type`.  Index expressions are not walked; a literal index is
checked against the array bound. -/
def refineChain (rt : RosType) (al : List (String × RosType)) :
    HplExpr → Except HplError (HplExpr × RosType)
  | .fieldAccess ty m f _ => do
      let (m', t) ← if m.isAccessor then refineChain rt al m else refineBase rt al m
      let t' ← fieldStep t f
      let ty' ← castMask ty (maskForRos t')
      .ok (.fieldAccess ty' m' f (some t'), t')
  | .arrayAccess ty a i _ => do
      let (a', t) ← if a.isAccessor then refineChain rt al a else refineBase rt al a
      if !t.isArray then .error (.hplType "not an array type")
      else do
        indexCheck t i
        let t' := t.typeToken
        let ty' ← castMask ty (maskForRos t')
        .ok (.arrayAccess ty' a' i (some t'), t')
  | _ => .error .pyAssertionError

mutual
/-- `HplPredicate.refine_types` stack walk: maximal accessor chains are
refined (their sub-expressions, including index expressions, are not
pushed); all other nodes only forward the walk to their children in
order. -/
def refineWalk (rt : RosType) (al : List (String × RosType)) :
    HplExpr → Except HplError HplExpr
  | .fieldAccess ty m f x => do
      let (e', _) ← refineChain rt al (.fieldAccess ty m f x)
      .ok e'
  | .arrayAccess ty a i x => do
      let (e', _) ← refineChain rt al (.arrayAccess ty a i x)
      .ok e'
  | .literal ty tok v => .ok (.literal ty tok v)
  | .thisMsg ty x => .ok (.thisMsg ty x)
  | .varRef ty tok d x => .ok (.varRef ty tok d x)
  | .setLit ty vs => do
      let vs' ← refineWalkList rt al vs
      .ok (.setLit ty vs')
  | .range ty lo hi em ex => do
      let lo' ← refineWalk rt al lo
      let hi' ← refineWalk rt al hi
      .ok (.range ty lo' hi' em ex)
  | .unaryOp ty op a => do
      let a' ← refineWalk rt al a
      .ok (.unaryOp ty op a')
  | .binaryOp ty op a b ifx c => do
      let a' ← refineWalk rt al a
      let b' ← refineWalk rt al b
      .ok (.binaryOp ty op a' b' ifx c)
  | .funCall ty f args => do
      let args' ← refineWalkList rt al args
      .ok (.funCall ty f args')
  | .quantifier ty q v d c => do
      let d' ← refineWalk rt al d
      let c' ← refineWalk rt al c
      .ok (.quantifier ty q v d' c')
def refineWalkList (rt : RosType) (al : List (String × RosType)) :
    List HplExpr → Except HplError (List HplExpr)
  | [] => .ok []
  | e :: rest => do
      let e' ← refineWalk rt al e
      let rest' ← refineWalkList rt al rest
      .ok (e' :: rest')
end

/-- Predicate refinement (a vacuous predicate is untouched). -/
def predRefine (rt : RosType) (al : List (String × RosType)) :
    HplPred → Except HplError HplPred
  | .pred c => do
      let c' ← refineWalk rt al c
      .ok (.pred c')
  | .vacuous => .ok .vacuous
  | .contradiction => .ok .contradiction

/-- Per-simple-event step of `HplProperty.refine_types`: the topic is
looked up (a missing topic is a type error); an event that already
carries a message type requires the same type again (otherwise the
"already defined" type error) and is otherwise untouched — note that a
successful predicate refinement does *not* fill the `msg_type` slot. -/
def simpleRefine (rostypes al : List (String × RosType)) :
    HplEvent → Except HplError HplEvent
  | .simple et pr topic a mt => do
      match lookupAssoc rostypes topic with
      | none => .error (.hplType ("undefined topic: " ++ topic))
      | some rt =>
          match mt with
          | some m =>
              if rosEq rt m then .ok (.simple et pr topic a mt)
              else .error (.hplType ("already defined: " ++ topic))
          | none => do
              let pr' ← predRefine rt al pr
              .ok (.simple et pr' topic a none)
  | .disjunction e1 e2 => do
      let e1' ← simpleRefine rostypes al e1
      let e2' ← simpleRefine rostypes al e2
      .ok (.disjunction e1' e2')

def refineEventOpt (rostypes al : List (String × RosType)) :
    Option HplEvent → Except HplError (Option HplEvent)
  | none => .ok none
  | some e => do
      let e' ← simpleRefine rostypes al e
      .ok (some e')

/-- `HplProperty.refine_types`: every simple event of every event slot,
in the order of `events()` (activator, behaviour, trigger,
terminator). -/
def propertyRefineTypes (rostypes al : List (String × RosType))
    (p : HplProperty) : Except HplError HplProperty := do
  let act' ← refineEventOpt rostypes al p.scope.activator
  let beh' ← simpleRefine rostypes al p.pattern.behaviour
  let trig' ← refineEventOpt rostypes al p.pattern.trigger
  let term' ← refineEventOpt rostypes al p.scope.terminator
  .ok ⟨⟨p.scope.scopeType, act', term'⟩,
       ⟨p.pattern.patternType, beh', trig', p.pattern.minTime, p.pattern.maxTime⟩⟩

/-! ## Equality (`__eq__` of each class) -/

mutual
/-- Structural equality of expressions per the `__eq__` methods:
literals compare by token, commutative binary operators also accept
swapped operands, type masks and schema annotations are ignored. -/
def exprEq : HplExpr → HplExpr → Bool
  | .literal _ tok _, .literal _ tok' _ => tok == tok'
  | .thisMsg _ _, .thisMsg _ _ => true
  | .varRef _ tok _ _, .varRef _ tok' _ _ => tok == tok'
  | .setLit _ vs, .setLit _ vs' => exprEqList vs vs'
  | .range _ lo hi em ex, .range _ lo' hi' em' ex' =>
      exprEq lo lo' && exprEq hi hi' && em == em' && ex == ex'
  | .fieldAccess _ m f _, .fieldAccess _ m' f' _ => exprEq m m' && f == f'
  | .arrayAccess _ a i _, .arrayAccess _ a' i' _ => exprEq a a' && exprEq i i'
  | .unaryOp _ op a, .unaryOp _ op' a' => op == op' && exprEq a a'
  | .binaryOp _ op a b _ comm, .binaryOp _ op' x y _ _ =>
      op == op' &&
        (if comm then (exprEq a x && exprEq b y) || (exprEq a y && exprEq b x)
         else exprEq a x && exprEq b y)
  | .funCall _ f args, .funCall _ f' args' => f == f' && exprEqList args args'
  | .quantifier _ q v d c, .quantifier _ q' v' d' c' =>
      q == q' && v == v' && exprEq d d' && exprEq c c'
  | _, _ => false
def exprEqList : List HplExpr → List HplExpr → Bool
  | [], [] => true
  | a :: as, b :: bs => exprEq a b && exprEqList as bs
  | _, _ => false
end

def predEq : HplPred → HplPred → Bool
  | .pred c, .pred c' => exprEq c c'
  | .vacuous, .vacuous => true
  | .contradiction, .contradiction => true
  | _, _ => false

/-- Event equality: a simple event compares by event type, predicate,
topic and message type — the alias is ignored; a disjunction compares
as an unordered pair. -/
def eventEq : HplEvent → HplEvent → Bool
  | .simple et p topic _ mt, .simple et' p' topic' _ mt' =>
      et == et' && predEq p p' && topic == topic' && optRosEq mt mt'
  | .disjunction a b, .disjunction x y =>
      (eventEq a x && eventEq b y) || (eventEq a y && eventEq b x)
  | _, _ => false

def optEventEq : Option HplEvent → Option HplEvent → Bool
  | none, none => true
  | some e, some e' => eventEq e e'
  | _, _ => false

/-- `isclose` of `ast.py` with `rel_tol = 1e-6`, `abs_tol = 0.0`:
`abs(a-b) <= max(rel_tol * max(abs(a), abs(b)), abs_tol)`. -/
def isclose (a b : PyFloat) : Bool :=
  (a.sub b).abs.le (PyFloat.max ((⟨1, 1000000⟩ : PyFloat).mul (PyFloat.max a.abs b.abs)) (pyF 0))

/-- `max_time` comparison of `HplPattern.__eq__`: both infinite, or
close. -/
def maxTimeEq : Option PyFloat → Option PyFloat → Bool
  | none, none => true
  | some a, some b => isclose a b
  | _, _ => false

def patternEq (p q : HplPattern) : Bool :=
  p.patternType == q.patternType && eventEq p.behaviour q.behaviour
    && optEventEq p.trigger q.trigger && isclose p.minTime q.minTime
    && maxTimeEq p.maxTime q.maxTime

def scopeEq (s s' : HplScope) : Bool :=
  s.scopeType == s'.scopeType && optEventEq s.activator s'.activator
    && optEventEq s.terminator s'.terminator

def propEq (p q : HplProperty) : Bool :=
  patternEq p.pattern q.pattern && scopeEq p.scope q.scope

/-- `HplSpecification`. -/
structure HplSpecification where
  properties : List HplProperty
deriving Repr

/-- `HplSpecification.__eq__` compares `set(self.properties)` with
`set(other.properties)`: mutual membership up to property equality
(under CPython's standing hash/eq-consistency assumption for set
elements). -/
def specEq (s s' : HplSpecification) : Bool :=
  s.properties.all (fun p => s'.properties.any (fun q => propEq p q))
    && s'.properties.all (fun p => s.properties.any (fun q => propEq p q))

/-! ## Hashing (`__hash__` of each class)

String hashing is runtime-dependent in Python (`PYTHONHASHSEED`), so
every hash function is parametrised by an arbitrary base string hash
`hs`; the numeric combinations are those of the source. -/

/-- Python `hash` of a bool: `True` is 1, `False` is 0. -/
def boolHash : Bool → Int
  | true => 1
  | false => 0

/-- Stand-in for Python tuple hashing of `HplFunctionCall.__hash__`
(`hash(self.arguments)`): a deterministic fold over the element
hashes. -/
def listIntHash (l : List Int) : Int :=
  l.foldl (fun h x => 31 * h + x) 7

mutual
def exprHash (hs : String → Int) : HplExpr → Int
  | .literal _ tok _ => hs tok
  | .thisMsg _ _ => 433494437
  | .varRef _ tok _ _ => hs tok
  | .setLit _ vs => setFold hs 11 vs
  | .range _ lo hi em ex =>
      31 * (31 * (31 * exprHash hs lo + exprHash hs hi) + boolHash em) + boolHash ex
  | .fieldAccess _ m f _ => 31 * exprHash hs m + hs f
  | .arrayAccess _ a i _ => 31 * exprHash hs a + exprHash hs i
  | .unaryOp _ op a => 31 * hs op + exprHash hs a
  | .binaryOp _ op a b _ _ => 31 * (31 * hs op + exprHash hs a) + exprHash hs b
  | .funCall _ f args => 31 * hs f + listIntHash (exprHashList hs args)
  | .quantifier _ q v d c =>
      31 * (31 * (31 * hs q + hs v) + exprHash hs d) + exprHash hs c
def setFold (hs : String → Int) : Int → List HplExpr → Int
  | h, [] => h
  | h, e :: rest => setFold hs (31 * h + exprHash hs e) rest
def exprHashList (hs : String → Int) : List HplExpr → List Int
  | [] => []
  | e :: rest => exprHash hs e :: exprHashList hs rest
end

def predHash (hs : String → Int) : HplPred → Int
  | .pred c => exprHash hs c
  | .vacuous => 27644437
  | .contradiction => 65537

/-- `HplSimpleEvent.__hash__` hashes event type, predicate and topic
(neither the alias nor the message type);
`HplEventDisjunction.__hash__` is symmetric in its operands. -/
def eventHash (hs : String → Int) : HplEvent → Int
  | .simple et p topic _ _ => 31 * (31 * (et : Int) + predHash hs p) + hs topic
  | .disjunction a b => 31 * eventHash hs a + 31 * eventHash hs b

/-- `HplSpecification.__hash__` evaluates `hash(set(self.properties))`:
CPython materialises the set (hashing every property, which always
succeeds) and then raises `TypeError`, because `set` objects are
unhashable.  The error is therefore unconditional. -/
def specHash (_s : HplSpecification) : Except HplError Int :=
  .error (.pyTypeError "unhashable type: set")

/-! ## Derived observation predicates used by the statements -/

/-- `contains_reference(alias)` on an expression: some node is a value,
is a variable, and has the given name. -/
def exprContainsVar (a : String) (e : HplExpr) : Bool :=
  (HplExpr.nodes e).any (fun n => n.isValue && n.isVariable && n.varName = a)

mutual
/-- No node of the expression is a field access whose parent is a
variable with the given name (i.e. no `@a.field` occurrence). -/
def fieldBaseFree (a : String) : HplExpr → Bool
  | .literal _ _ _ => true
  | .thisMsg _ _ => true
  | .varRef _ _ _ _ => true
  | .setLit _ vs => fieldBaseFreeList a vs
  | .range _ lo hi _ _ => fieldBaseFree a lo && fieldBaseFree a hi
  | .fieldAccess _ m _ _ =>
      !(m.isValue && m.isVariable && m.varName = a) && fieldBaseFree a m
  | .arrayAccess _ x i _ => fieldBaseFree a x && fieldBaseFree a i
  | .unaryOp _ _ x => fieldBaseFree a x
  | .binaryOp _ _ x y _ _ => fieldBaseFree a x && fieldBaseFree a y
  | .funCall _ _ args => fieldBaseFreeList a args
  | .quantifier _ _ _ d c => fieldBaseFree a d && fieldBaseFree a c
def fieldBaseFreeList (a : String) : List HplExpr → Bool
  | [] => true
  | e :: rest => fieldBaseFree a e && fieldBaseFreeList a rest
end

def predFieldBaseFree (a : String) : HplPred → Bool
  | .pred c => fieldBaseFree a c
  | .vacuous => true
  | .contradiction => true

def HplEvent.predOf : HplEvent → Option HplPred
  | .simple _ p _ _ _ => some p
  | .disjunction _ _ => none

/-- Aliases defined by the activator (the initial available set of the
sanity check). -/
def initialAliases (p : HplProperty) : List String :=
  match p.scope.activator with
  | some act => eventAliases act
  | none => []

/-- Aliases defined by the pattern's events. -/
def patternAliases (p : HplProperty) : List String :=
  eventAliases p.pattern.behaviour ++
    (match p.pattern.trigger with
     | some tr => eventAliases tr
     | none => [])

/-- All aliases defined anywhere in the property. -/
def propAllAliases (p : HplProperty) : List String :=
  initialAliases p ++ patternAliases p ++
    (match p.scope.terminator with
     | some q => eventAliases q
     | none => [])

/-- Every external (field-access-parent) variable reference of every
event resolves to an alias defined by an event that precedes it in the
alias-scope order of the sanity check: the activator defines the
initial aliases and may reference nothing; the pattern's primary event
sees the initial aliases; the dependent event additionally sees the
primary's aliases; the terminator sees the initial aliases only. -/
def refsWellScoped (p : HplProperty) : Bool :=
  let initial := initialAliases p
  (match p.scope.activator with
   | some act => eventExtRefs act = ([] : List String)
   | none => true)
  && (if p.pattern.patternType = 2 ∨ p.pattern.patternType = 1 then
        (eventExtRefs p.pattern.behaviour).all (· ∈ initial)
      else if p.pattern.patternType = 4 then
        match p.pattern.trigger with
        | some tr =>
            (eventExtRefs p.pattern.behaviour).all (· ∈ initial)
              && (eventExtRefs tr).all (· ∈ eventAliases p.pattern.behaviour ++ initial)
        | none => false
      else if p.pattern.patternType = 3 ∨ p.pattern.patternType = 5 then
        match p.pattern.trigger with
        | some tr =>
            (eventExtRefs tr).all (· ∈ initial)
              && (eventExtRefs p.pattern.behaviour).all (· ∈ eventAliases tr ++ initial)
        | none => false
      else false)
  && (match p.scope.terminator with
      | some q => (eventExtRefs q).all (· ∈ initial)
      | none => true)

mutual
/-- Invariant I1: every node of the tree has a non-empty type set. -/
def allNonempty : HplExpr → Bool
  | .literal t _ _ => t ≠ 0
  | .thisMsg t _ => t ≠ 0
  | .varRef t _ _ _ => t ≠ 0
  | .setLit t vs => t ≠ 0 && allNonemptyList vs
  | .range t lo hi _ _ => t ≠ 0 && allNonempty lo && allNonempty hi
  | .fieldAccess t m _ _ => t ≠ 0 && allNonempty m
  | .arrayAccess t a i _ => t ≠ 0 && allNonempty a && allNonempty i
  | .unaryOp t _ a => t ≠ 0 && allNonempty a
  | .binaryOp t _ a b _ _ => t ≠ 0 && allNonempty a && allNonempty b
  | .funCall t _ args => t ≠ 0 && allNonemptyList args
  | .quantifier t _ _ d c => t ≠ 0 && allNonempty d && allNonempty c
def allNonemptyList : List HplExpr → Bool
  | [] => true
  | e :: rest => allNonempty e && allNonemptyList rest
end

/-- Expressions produced by the constructor pipeline: the leaf
constructors, each `mk…` applied to built children, and the condition
of a successfully constructed predicate (whose `_static_checks` narrow
it further in place). -/
inductive Built : HplExpr → Prop where
  | lit : ∀ tok v, Built (mkLiteral tok v)
  | var : ∀ tok, Built (mkVarRef tok)
  | thisM : Built mkThisMessage
  | un : ∀ op a e, Built a → mkUnaryOp op a = .ok e → Built e
  | bin : ∀ op a b e, Built a → Built b → mkBinaryOp op a b = .ok e → Built e
  | set : ∀ vs e, (∀ v ∈ vs, Built v) → mkSet vs = .ok e → Built e
  | ran : ∀ lb ub em ex e, Built lb → Built ub → mkRange lb ub em ex = .ok e → Built e
  | fld : ∀ m f e, Built m → mkFieldAccess m f = .ok e → Built e
  | arr : ∀ a i e, Built a → Built i → mkArrayAccess a i = .ok e → Built e
  | fn : ∀ f args e, (∀ x ∈ args, Built x) → mkFunctionCall f args = .ok e → Built e
  | qtf : ∀ qt v dom p sh e, Built dom → Built p → mkQuantifier qt v dom p sh = .ok e → Built e
  | prd : ∀ c c', Built c → mkPredicate c = .ok (.pred c') → Built c'

/-! ## Concrete inputs of the witnesses and counterexamples -/

/-- Claim C1's binary operator after construction: `@x` narrowed from
`T_ITEM` to `T_PRIM`, the literal from `T_NUM` to `T_NUM`. -/
def c1binop : HplExpr :=
  .binaryOp T_BOOL "=" (.varRef T_PRIM "@x" false none)
    (.literal T_NUM "5" (.int 5)) true true

/-- The predicate expression `(x = @w)` after construction (a field
reference on the implicit message compared to a bare external
variable). -/
def c2expr : HplExpr :=
  .binaryOp T_BOOL "=" (.fieldAccess T_PRIM (.thisMsg T_MSG none) "x" none)
    (.varRef T_PRIM "@w" false none) true true

/-- Constructor pipeline building `(x = @w)` as a predicate. -/
def c2build : Except HplError HplPred := do
  let fa ← mkFieldAccess mkThisMessage "x"
  let e ← mkBinaryOp "=" fa (mkVarRef "@w")
  mkPredicate e

/-- Global-scope absence property over `/b` with predicate
`(x = @w)` — the bare `@w` names no alias anywhere. -/
def c2prop : HplProperty :=
  ⟨⟨1, none, none⟩, ⟨2, .simple 1 (.pred c2expr) "/b" none none, none, pyF 0, none⟩⟩

def c3propA : HplProperty :=
  ⟨⟨1, none, none⟩, ⟨2, .simple 1 .vacuous "/a" none none, none, pyF 0, none⟩⟩

def c3propB : HplProperty :=
  ⟨⟨1, none, none⟩, ⟨2, .simple 1 .vacuous "/b" none none, none, pyF 0, none⟩⟩

def c4behaviour : HplEvent := .simple 1 .vacuous "/b" none none

def c4trigger : HplEvent := .simple 1 .vacuous "/t" none none

/-- The expression `(x = @a)` after construction — the bare self
reference `@a` in the predicate of an event aliased `a`. -/
def c6expr : HplExpr :=
  .binaryOp T_BOOL "=" (.fieldAccess T_PRIM (.thisMsg T_MSG none) "x" none)
    (.varRef T_PRIM "@a" false none) true true

/-- Constructor pipeline: the event `/t as a` whose predicate is
`(x = @a)`. -/
def c6build : Except HplError HplEvent := do
  let fa ← mkFieldAccess mkThisMessage "x"
  let e ← mkBinaryOp "=" fa (mkVarRef "@a")
  let p ← mkPredicate e
  mkSimpleEvent 1 p "/t" none (some "a")

/-- Predicate `(x = @a.k)` after construction, before the self-alias
rewrite. -/
def c6predIn : HplPred :=
  .pred (.binaryOp T_BOOL "="
    (.fieldAccess T_PRIM (.thisMsg T_MSG none) "x" none)
    (.fieldAccess T_PRIM (.varRef T_MSG "@a" false none) "k" none) true true)

/-- The predicate of the event `/t as a {(x = @a.k)}` after
construction: the self-aliased base `@a` rewritten to the implicit
message. -/
def c6exprOut : HplExpr :=
  .binaryOp T_BOOL "="
    (.fieldAccess T_PRIM (.thisMsg T_MSG none) "x" none)
    (.fieldAccess T_PRIM (.thisMsg T_MSG none) "k" none) true true

def c6eventOut : HplEvent := .simple 1 (.pred c6exprOut) "/t" (some "a") none

/-- Predicate `(x > 0)` after construction. -/
def c7predicate : HplPred :=
  .pred (.binaryOp T_BOOL ">"
    (.fieldAccess T_NUM (.thisMsg T_MSG none) "x" none)
    (.literal T_NUM "0" (.int 0)) true false)

/-- Global-scope absence property `no /odom {(x > 0)}`. -/
def c7prop : HplProperty :=
  ⟨⟨1, none, none⟩, ⟨2, .simple 1 c7predicate "/odom" none none, none, pyF 0, none⟩⟩

def c7schema : List (String × RosType) := [("/odom", .message [("x", .number)] [])]

/-- The property after one refinement pass: accessor `x` annotated with
the number schema type, the implicit message with the topic schema. -/
def c7refined : HplProperty :=
  ⟨⟨1, none, none⟩,
   ⟨2, .simple 1
      (.pred (.binaryOp T_BOOL ">"
        (.fieldAccess T_NUM (.thisMsg T_MSG (some (.message [("x", .number)] []))) "x"
          (some .number))
        (.literal T_NUM "0" (.int 0)) true false))
      "/odom" none none, none, pyF 0, none⟩⟩

/-- Terminator predicate `(x = @m.k)` after construction: it references
the alias `m`. -/
def c8termPred : HplPred :=
  .pred (.binaryOp T_BOOL "="
    (.fieldAccess T_PRIM (.thisMsg T_MSG none) "x" none)
    (.fieldAccess T_PRIM (.varRef T_MSG "@m" false none) "k" none) true true)

def c8terminator : HplEvent := .simple 1 c8termPred "/t" none none

/-- `until` property: response pattern `/a as m causes /b`, terminator
`/t` referencing `@m.k` — the alias `m` is defined by the trigger, not
by any activator. -/
def c8prop : HplProperty :=
  ⟨⟨4, none, some c8terminator⟩,
   ⟨3, .simple 1 .vacuous "/b" none none,
      some (.simple 1 .vacuous "/a" (some "m") none), pyF 0, none⟩⟩

def c9sub1 : HplExpr :=
  .binaryOp T_NUM "-" (.literal T_NUM "1" (.int 1)) (.literal T_NUM "2" (.int 2)) true false

def c9sub2 : HplExpr :=
  .binaryOp T_NUM "-" (.literal T_NUM "2" (.int 2)) (.literal T_NUM "1" (.int 1)) true false

def c9evA : HplEvent := .simple 1 .vacuous "/a" none none

def c9evB : HplEvent := .simple 1 .vacuous "/b" none none

def c9addA : HplExpr :=
  .binaryOp T_NUM "+" (.literal T_NUM "1" (.int 1)) (.literal T_NUM "2" (.int 2)) true true

def c9addB : HplExpr :=
  .binaryOp T_NUM "+" (.literal T_NUM "2" (.int 2)) (.literal T_NUM "1" (.int 1)) true true

/-! ## Helper lemmas -/

theorem land_mask_idem (x m : Nat) : (x &&& m) &&& m = x &&& m := by
  rw [Nat.land_assoc]
  simp

mutual
theorem exprEq_refl : ∀ e : HplExpr, exprEq e e = true
  | .literal _ _ _ => by simp [exprEq]
  | .thisMsg _ _ => by simp [exprEq]
  | .varRef _ _ _ _ => by simp [exprEq]
  | .setLit _ vs => by simp [exprEq]; exact exprEqList_refl vs
  | .range _ lo hi _ _ => by
      simp [exprEq]
      exact ⟨exprEq_refl lo, exprEq_refl hi⟩
  | .fieldAccess _ m _ _ => by simp [exprEq]; exact exprEq_refl m
  | .arrayAccess _ a i _ => by
      simp [exprEq]
      exact ⟨exprEq_refl a, exprEq_refl i⟩
  | .unaryOp _ _ a => by simp [exprEq]; exact exprEq_refl a
  | .binaryOp _ _ a b _ c => by
      cases c <;> simp [exprEq] <;>
        first
          | exact ⟨exprEq_refl a, exprEq_refl b⟩
          | exact Or.inl ⟨exprEq_refl a, exprEq_refl b⟩
  | .funCall _ _ args => by simp [exprEq]; exact exprEqList_refl args
  | .quantifier _ _ _ d c => by
      simp [exprEq]
      exact ⟨exprEq_refl d, exprEq_refl c⟩
theorem exprEqList_refl : ∀ l : List HplExpr, exprEqList l l = true
  | [] => by simp [exprEqList]
  | e :: rest => by
      simp [exprEqList]
      exact ⟨exprEq_refl e, exprEqList_refl rest⟩
end

mutual
theorem rosEq_refl : ∀ t : RosType, rosEq t t = true
  | .message f c => by
      simp [rosEq]
      exact ⟨rosFieldsEq_refl f, rosFieldsEq_refl c⟩
  | .rosArray e s => by simp [rosEq]; exact rosEq_refl e
  | .number => by simp [rosEq]
  | .boolean => by simp [rosEq]
  | .rosString => by simp [rosEq]
theorem rosFieldsEq_refl : ∀ l : List (String × RosType), rosFieldsEq l l = true
  | [] => by simp [rosFieldsEq]
  | (k, v) :: rest => by
      simp [rosFieldsEq]
      exact ⟨rosEq_refl v, rosFieldsEq_refl rest⟩
end

theorem optRosEq_refl : ∀ t : Option RosType, optRosEq t t = true
  | none => rfl
  | some t => rosEq_refl t

theorem predEq_refl : ∀ p : HplPred, predEq p p = true
  | .pred c => exprEq_refl c
  | .vacuous => rfl
  | .contradiction => rfl

theorem eventEq_refl : ∀ e : HplEvent, eventEq e e = true
  | .simple _ p _ _ mt => by
      simp [eventEq]
      exact ⟨predEq_refl p, optRosEq_refl mt⟩
  | .disjunction a b => by
      simp [eventEq]
      exact Or.inl ⟨eventEq_refl a, eventEq_refl b⟩

/-- A successfully constructed binary operator over a symmetric,
commutative table row compares equal to the one with swapped
operands. -/
theorem mkBinaryOp_comm {op : String} {a b e1 e2 : HplExpr} {m tout : Nat} {ifx : Bool}
    (ht : binOpTable op = some (m, m, tout, ifx, true))
    (h1 : mkBinaryOp op a b = .ok e1) (h2 : mkBinaryOp op b a = .ok e2) :
    exprEq e1 e2 = true := by
  unfold mkBinaryOp at h1 h2
  rw [ht] at h1 h2
  simp only [bind, Except.bind] at h1 h2
  cases hca : castE a m with
  | error e => rw [hca] at h1; cases h1
  | ok a' =>
  rw [hca] at h1
  cases hcb : castE b m with
  | error e => rw [hcb] at h1; cases h1
  | ok b' =>
  rw [hcb] at h1
  rw [hcb] at h2
  rw [hca] at h2
  cases h1
  cases h2
  simp [exprEq]
  exact Or.inr ⟨exprEq_refl a', exprEq_refl b'⟩

/-! ## Claim C1 -/

/-- Claim C1 as stated is false: in the predicate `@x = 5` the
variable `@x` does start at `Item`, but the binary-operator
construction narrows it only to `Primitive` (not to the singleton
`Number`), and the `HplPredicate` construction itself raises the
sanity error "no references to any fields of this message", so there
is no predicate-construction state in which `@x` is `Number`. -/
theorem c1_counterexample :
    mkBinaryOp "=" (mkVarRef "@x") (mkLiteral "5" (.int 5))
      = .ok (.binaryOp T_BOOL "=" (.varRef T_PRIM "@x" false none)
          (.literal T_NUM "5" (.int 5)) true true)
    ∧ T_PRIM ≠ T_NUM
    ∧ mkPredicate c1binop
      = .error (.hplSanity "there are no references to any fields of this message") :=
  ⟨rfl, by decide, rfl⟩

/-- Claim C1 amended: `@x` starts with type set `Item`; constructing
`@x = 5` narrows `@x` to `Item ∩ Primitive = Primitive` (the equality
operator casts each operand to `Primitive` independently, with no
cross-operand unification); wrapping the expression in an
`HplPredicate` raises a sanity error because the predicate contains no
field reference on the implicit message. -/
theorem c1_amended :
    (mkVarRef "@x").types = T_ITEM
    ∧ mkBinaryOp "=" (mkVarRef "@x") (mkLiteral "5" (.int 5)) = .ok c1binop
    ∧ c1binop = .binaryOp T_BOOL "=" (.varRef T_PRIM "@x" false none)
        (.literal T_NUM "5" (.int 5)) true true
    ∧ T_ITEM &&& T_PRIM = T_PRIM
    ∧ mkPredicate c1binop
      = .error (.hplSanity "there are no references to any fields of this message") :=
  ⟨rfl, rfl, rfl, by decide, rfl⟩

/-! ## Claim C3 -/

/-- Claim C3: the equality of specifications is indeed
set-of-properties (order and duplication do not matter), but
`HplSpecification.__hash__` computes `hash(set(self.properties))`,
which raises `TypeError` unconditionally because Python `set` objects
are unhashable — the hash operation never succeeds, on any
specification. -/
theorem c3_spec_hash_raises :
    specHash ⟨[]⟩ = .error (.pyTypeError "unhashable type: set")
    ∧ specHash ⟨[c3propA, c3propB]⟩ = .error (.pyTypeError "unhashable type: set")
    ∧ specEq ⟨[c3propA, c3propB]⟩ ⟨[c3propB, c3propA, c3propA]⟩ = true :=
  ⟨rfl, rfl, by decide⟩

/-! ## Claim C4 -/

/-- Claim C4 as stated is false: an `HplPattern` of kind `RESPONSE`
constructs successfully with an empty trigger slot. -/
theorem c4_counterexample :
    mkPattern 3 c4behaviour none (pyF 0) none = .ok ⟨3, c4behaviour, none, pyF 0, none⟩
    ∧ (⟨3, c4behaviour, none, pyF 0, none⟩ : HplPattern).trigger = none :=
  ⟨rfl, rfl⟩

/-- Claim C4 amended: a successfully constructed pattern has a
non-empty trigger only if its kind is Response, Requirement or
Prevention, and constructing an Existence or Absence pattern with a
trigger fails — but the converse direction does not hold: Response,
Requirement and Prevention patterns construct successfully with no
trigger (the constructor does not require one). -/
theorem c4_amended :
    (∀ pt b tr mn mx pat, mkPattern pt b tr mn mx = .ok pat →
       ((pat.trigger.isSome → pt = 3 ∨ pt = 4 ∨ pt = 5)
         ∧ ((pt = 1 ∨ pt = 2) → pat.trigger = none)))
    ∧ (∀ pt b tr mn mx, (pt = 1 ∨ pt = 2) → tr.isSome →
        mkPattern pt b tr mn mx = .error .pyValueError)
    ∧ (∀ pt b mn mx, (pt = 3 ∨ pt = 4 ∨ pt = 5) →
        ∃ pat, mkPattern pt b none mn mx = .ok pat ∧ pat.trigger = none) := by
  refine ⟨?_, ?_, ?_⟩
  · intro pt b tr mn mx pat h
    unfold mkPattern at h
    split at h
    · rename_i h12
      split at h
      · exact absurd h (by simp)
      · rename_i htr
        simp at h
        constructor
        · intro hsome
          rw [← h] at hsome
          simp at hsome
          exact absurd hsome htr
        · intro _
          rw [← h]
          simp at htr
          exact htr
    · rename_i h12
      split at h
      · exact absurd h (by simp)
      · rename_i h345
        simp at h
        push_neg at h345
        constructor
        · intro _
          omega
        · intro hc
          exact absurd hc h12
  · intro pt b tr mn mx h12 hsome
    unfold mkPattern
    split
    · simp [hsome]
    · rename_i hn
      exact absurd h12 hn
  · intro pt b mn mx h345
    unfold mkPattern
    split
    · rename_i h12
      omega
    · split
      · rename_i hn
        omega
      · exact ⟨⟨pt, b, none, mn, mx⟩, rfl, rfl⟩

/-- Witness for the amended C4 at concrete inputs. -/
theorem c4_witness :
    ((3 : Nat) = 3 ∨ (3 : Nat) = 4 ∨ (3 : Nat) = 5)
    ∧ mkPattern 1 c4behaviour (some c4trigger) (pyF 0) none = .error .pyValueError
    ∧ ∃ pat, mkPattern 3 c4behaviour none (pyF 0) none = .ok pat ∧ pat.trigger = none :=
  ⟨(c4_amended.1 3 c4behaviour (some c4trigger) (pyF 0) none
      ⟨3, c4behaviour, some c4trigger, pyF 0, none⟩ rfl).1 rfl,
   c4_amended.2.1 1 c4behaviour (some c4trigger) (pyF 0) none (Or.inl rfl) rfl,
   c4_amended.2.2 3 c4behaviour (pyF 0) none (Or.inl rfl)⟩

/-! ## Claim C9 -/

/-- Claim C9: binary operators from commutative table rows compare
equal with swapped operands, event disjunctions compare as unordered
pairs, and a non-commutative operator (`-`) distinguishes the operand
order. -/
theorem c9_commutativity :
    (∀ op a b e1 e2,
        (op = "+" ∨ op = "*" ∨ op = "and" ∨ op = "or" ∨ op = "iff"
          ∨ op = "=" ∨ op = "!=") →
        mkBinaryOp op a b = .ok e1 → mkBinaryOp op b a = .ok e2 →
        exprEq e1 e2 = true)
    ∧ (∀ x y d1 d2, mkEventDisjunction x y = .ok d1 →
        mkEventDisjunction y x = .ok d2 → eventEq d1 d2 = true)
    ∧ (mkBinaryOp "-" (mkLiteral "1" (.int 1)) (mkLiteral "2" (.int 2)) = .ok c9sub1
       ∧ mkBinaryOp "-" (mkLiteral "2" (.int 2)) (mkLiteral "1" (.int 1)) = .ok c9sub2
       ∧ exprEq c9sub1 c9sub2 = false) := by
  refine ⟨?_, ?_, rfl, rfl, by decide⟩
  · intro op a b e1 e2 hop h1 h2
    rcases hop with rfl | rfl | rfl | rfl | rfl | rfl | rfl <;>
      exact mkBinaryOp_comm (by rfl) h1 h2
  · intro x y d1 d2 h1 h2
    unfold mkEventDisjunction at h1 h2
    simp only [bind, Except.bind] at h1 h2
    cases hc1 : collectTopics (.disjunction x y) [] with
    | error e => rw [hc1] at h1; cases h1
    | ok acc1 =>
    rw [hc1] at h1
    cases hc2 : collectTopics (.disjunction y x) [] with
    | error e => rw [hc2] at h2; cases h2
    | ok acc2 =>
    rw [hc2] at h2
    cases h1
    cases h2
    simp [eventEq]
    exact Or.inr ⟨eventEq_refl x, eventEq_refl y⟩

/-- Witness for C9 at concrete inputs. -/
theorem c9_witness :
    exprEq c9addA c9addB = true
    ∧ eventEq (.disjunction c9evA c9evB) (.disjunction c9evB c9evA) = true :=
  ⟨c9_commutativity.1 "+" (mkLiteral "1" (.int 1)) (mkLiteral "2" (.int 2))
      c9addA c9addB (Or.inl rfl) rfl rfl,
   c9_commutativity.2.1 c9evA c9evB (.disjunction c9evA c9evB)
      (.disjunction c9evB c9evA) rfl rfl⟩

/-! ## Claim C10 -/

/-- Claim C10: simple-event equality and hashing ignore the alias
slot — two simple events agreeing on event type, predicate, topic and
message type compare equal and hash identically for any aliases (the
hash also ignores the message type, so no condition on it is even
needed there). -/
theorem c10_alias_ignored :
    ∀ (hs : String → Int) (et : Nat) (p : HplPred) (topic : String)
      (mt : Option RosType) (a1 a2 : Option String),
      eventEq (.simple et p topic a1 mt) (.simple et p topic a2 mt) = true
      ∧ eventHash hs (.simple et p topic a1 mt)
          = eventHash hs (.simple et p topic a2 mt) := by
  intro hs et p topic mt a1 a2
  constructor
  · simp [eventEq]
    exact ⟨predEq_refl p, optRosEq_refl mt⟩
  · rfl

/-! ## Claim C6 -/

/-- Claim C6 as stated is false: constructing the event `/t as a` with
the non-vacuous predicate `(x = @a)` succeeds, yet the resulting
predicate still contains the bare variable reference `@a` — only
field-access parents are rewritten to `ThisMessage`. -/
theorem c6_counterexample :
    c6build = .ok (.simple 1 (.pred c6expr) "/t" (some "a") none)
    ∧ exprContainsVar "a" c6expr = true :=
  ⟨rfl, rfl⟩

theorem replaceSelfRef_isVariable (a : String) (m : HplExpr) :
    (replaceSelfRef a m).isVariable = m.isVariable := by
  cases m <;>
    first
      | rfl
      | (simp only [replaceSelfRef]; split <;> rfl)

theorem replaceSelfRef_var_id (a : String) (m : HplExpr) (h : m.isVariable = true) :
    replaceSelfRef a m = m := by
  cases m <;> first | rfl | simp [HplExpr.isVariable] at h

mutual
/-- After `replace_self_reference(a)` no field access has a parent
variable named `a`. -/
theorem replaceSelfRef_free (a : String) : ∀ e : HplExpr,
    fieldBaseFree a (replaceSelfRef a e) = true
  | .literal _ _ _ => rfl
  | .thisMsg _ _ => rfl
  | .varRef _ _ _ _ => rfl
  | .setLit _ vs => by
      simp only [replaceSelfRef, fieldBaseFree]
      exact replaceSelfRefList_free a vs
  | .range _ lo hi _ _ => by
      simp only [replaceSelfRef, fieldBaseFree, Bool.and_eq_true]
      exact ⟨replaceSelfRef_free a lo, replaceSelfRef_free a hi⟩
  | .fieldAccess _ m _ _ => by
      simp only [replaceSelfRef]
      split
      · simp [fieldBaseFree, mkThisMessage, HplExpr.isVariable, HplExpr.isValue]
      · rename_i hc
        simp only [fieldBaseFree, Bool.and_eq_true]
        refine ⟨?_, replaceSelfRef_free a m⟩
        by_cases hv : m.isVariable = true
        · rw [replaceSelfRef_var_id a m hv]
          simp only [Bool.not_eq_true', Bool.and_eq_false_iff]
          simp only [Bool.and_eq_true, not_and, decide_eq_true_eq] at hc
          by_cases hval : m.isValue = true
          · right
            simp [decide_eq_false_iff_not]
            exact hc ⟨hval, hv⟩
          · left
            left
            simpa using hval
        · have hm := replaceSelfRef_isVariable a m
          simp only [Bool.not_eq_true] at hv
          rw [hv] at hm
          simp [hm]
  | .arrayAccess _ x i _ => by
      simp only [replaceSelfRef, fieldBaseFree, Bool.and_eq_true]
      exact ⟨replaceSelfRef_free a x, replaceSelfRef_free a i⟩
  | .unaryOp _ _ x => by
      simp only [replaceSelfRef, fieldBaseFree]
      exact replaceSelfRef_free a x
  | .binaryOp _ _ x y _ _ => by
      simp only [replaceSelfRef, fieldBaseFree, Bool.and_eq_true]
      exact ⟨replaceSelfRef_free a x, replaceSelfRef_free a y⟩
  | .funCall _ _ args => by
      simp only [replaceSelfRef, fieldBaseFree]
      exact replaceSelfRefList_free a args
  | .quantifier _ _ _ d c => by
      simp only [replaceSelfRef, fieldBaseFree, Bool.and_eq_true]
      exact ⟨replaceSelfRef_free a d, replaceSelfRef_free a c⟩
theorem replaceSelfRefList_free (a : String) : ∀ l : List HplExpr,
    fieldBaseFreeList a (replaceSelfRefList a l) = true
  | [] => rfl
  | e :: rest => by
      simp only [replaceSelfRefList, fieldBaseFreeList, Bool.and_eq_true]
      exact ⟨replaceSelfRef_free a e, replaceSelfRefList_free a rest⟩
end

/-- Claim C6 amended: for every successfully constructed simple event
with a (non-empty) alias `a`, the resulting predicate contains no
field access whose parent is a variable named `a` — every self-aliased
`@a.field` parent has been replaced by `ThisMessage`; bare `@a` and
indexed `@a[i]` parents are left in place. -/
theorem c6_amended :
    ∀ (et : Nat) (pr : HplPred) (topic : String) (mt : Option RosType)
      (a : String) (ev : HplEvent),
      a ≠ "" → mkSimpleEvent et pr topic mt (some a) = .ok ev →
      ∀ p', ev.predOf = some p' → predFieldBaseFree a p' = true := by
  intro et pr topic mt a ev ha h p' hp
  unfold mkSimpleEvent at h
  split at h
  · cases h
  · simp only [Except.ok.injEq] at h
    rw [← h] at hp
    simp only [HplEvent.predOf, Option.some.injEq, if_neg ha] at hp
    rw [← hp]
    cases pr with
    | pred c => exact replaceSelfRef_free a c
    | vacuous => rfl
    | contradiction => rfl

/-- Witness for the amended C6: the event `/t as a {(x = @a.k)}`. -/
theorem c6_witness : predFieldBaseFree "a" (.pred c6exprOut) = true :=
  c6_amended 1 c6predIn "/t" none "a" c6eventOut (by decide) rfl (.pred c6exprOut) rfl

/-! ## Sanity-check decomposition lemmas -/

theorem checkRefsDefined_ok : ∀ {refs available : List String},
    checkRefsDefined refs available = .ok () → refs.all (· ∈ available) = true := by
  intro refs
  induction refs with
  | nil => intro available _; rfl
  | cons r rest ih =>
      intro available h
      unfold checkRefsDefined at h
      split at h
      · rename_i hmem
        simp only [List.all_cons, Bool.and_eq_true]
        exact ⟨by simpa using hmem, ih h⟩
      · cases h

theorem checkActivator_ok {p : HplProperty} {init : List String}
    (h : checkActivator p = .ok init) :
    init = initialAliases p
    ∧ (∀ act, p.scope.activator = some act → eventExtRefs act = []) := by
  unfold checkActivator at h
  unfold initialAliases
  cases hact : p.scope.activator with
  | none =>
      simp only [hact] at h
      cases h
      exact ⟨rfl, by intro act hc; cases hc⟩
  | some act =>
      simp only [hact] at h
      split at h
      · rename_i hrefs
        cases h
        refine ⟨rfl, ?_⟩
        intro act' hc
        cases hc
        exact hrefs
      · cases h

theorem checkBehaviour_ok {p : HplProperty} {avail al : List String}
    (h : checkBehaviour p avail = .ok al) :
    (eventExtRefs p.pattern.behaviour).all (· ∈ avail) = true
    ∧ al = eventAliases p.pattern.behaviour ++ avail := by
  unfold checkBehaviour at h
  simp only [bind, Except.bind] at h
  cases hr : checkRefsDefined (eventExtRefs p.pattern.behaviour) avail with
  | error e => rw [hr] at h; cases h
  | ok u =>
  cases u
  rw [hr] at h
  cases hd : checkDuplicates (eventAliases p.pattern.behaviour) avail with
  | error e => rw [hd] at h; cases h
  | ok u =>
  cases u
  rw [hd] at h
  cases h
  exact ⟨checkRefsDefined_ok hr, rfl⟩

theorem checkTrigger_ok {p : HplProperty} {avail al : List String}
    (h : checkTrigger p avail = .ok al) :
    ∃ tr, p.pattern.trigger = some tr
      ∧ (eventExtRefs tr).all (· ∈ avail) = true
      ∧ al = eventAliases tr ++ avail := by
  unfold checkTrigger at h
  cases htr : p.pattern.trigger with
  | none => rw [htr] at h; cases h
  | some tr =>
  rw [htr] at h
  simp only [bind, Except.bind] at h
  cases hr : checkRefsDefined (eventExtRefs tr) avail with
  | error e => rw [hr] at h; cases h
  | ok u =>
  cases u
  rw [hr] at h
  cases hd : checkDuplicates (eventAliases tr) avail with
  | error e => rw [hd] at h; cases h
  | ok u =>
  cases u
  rw [hd] at h
  cases h
  exact ⟨tr, rfl, checkRefsDefined_ok hr, rfl⟩

theorem checkTerminator_ok {p : HplProperty} {avail : List String}
    (h : checkTerminator p avail = .ok ()) :
    ∀ q, p.scope.terminator = some q → (eventExtRefs q).all (· ∈ avail) = true := by
  intro q hq
  unfold checkTerminator at h
  rw [hq] at h
  simp only [bind, Except.bind] at h
  cases hr : checkRefsDefined (eventExtRefs q) avail with
  | error e => rw [hr] at h; cases h
  | ok u =>
  cases u
  exact checkRefsDefined_ok hr

/-- Decomposition of a successful `sanity_check` into its sequential
sub-checks, by pattern kind. -/
theorem sanityCheck_ok_cases {p : HplProperty} (h : sanityCheck p = .ok ()) :
    ∃ init, checkActivator p = .ok init
      ∧ checkTerminator p init = .ok ()
      ∧ ((p.pattern.patternType = 2 ∨ p.pattern.patternType = 1)
            ∧ (∃ al, checkBehaviour p init = .ok al)
         ∨ p.pattern.patternType = 4
            ∧ (∃ al al2, checkBehaviour p init = .ok al ∧ checkTrigger p al = .ok al2)
         ∨ (p.pattern.patternType = 3 ∨ p.pattern.patternType = 5)
            ∧ (∃ al al2, checkTrigger p init = .ok al ∧ checkBehaviour p al = .ok al2)) := by
  unfold sanityCheck at h
  simp only [bind, Except.bind] at h
  cases ha : checkActivator p with
  | error e => rw [ha] at h; cases h
  | ok init =>
  simp only [ha] at h
  split at h
  · rename_i h12
    cases hb : checkBehaviour p init with
    | error e => rw [hb] at h; cases h
    | ok al =>
    simp only [hb] at h
    exact ⟨init, rfl, h, Or.inl ⟨h12, al, hb⟩⟩
  · split at h
    · rename_i h4
      cases hb : checkBehaviour p init with
      | error e => rw [hb] at h; cases h
      | ok al =>
      simp only [hb] at h
      cases ht : checkTrigger p al with
      | error e => rw [ht] at h; cases h
      | ok al2 =>
      simp only [ht] at h
      exact ⟨init, rfl, h, Or.inr (Or.inl ⟨h4, al, al2, hb, ht⟩)⟩
    · split at h
      · rename_i h35
        cases ht : checkTrigger p init with
        | error e => rw [ht] at h; cases h
        | ok al =>
        simp only [ht] at h
        cases hb : checkBehaviour p al with
        | error e => rw [hb] at h; cases h
        | ok al2 =>
        simp only [hb] at h
        exact ⟨init, rfl, h, Or.inr (Or.inr ⟨h35, al, al2, ht, hb⟩)⟩
      · cases h

/-! ## Claim C2 -/

/-- Claim C2 as stated is false: this property passes `sanity_check`
although the bare variable reference `@w` inside the behaviour's
predicate names no alias defined anywhere in the property —
`external_references` only collects variables occurring as the parent
of a field access, so a bare `@name` is never checked. -/
theorem c2_counterexample :
    c2build = .ok (.pred c2expr)
    ∧ sanityCheck c2prop = .ok ()
    ∧ exprContainsVar "w" c2expr = true
    ∧ propAllAliases c2prop = [] :=
  ⟨rfl, rfl, rfl, rfl⟩

/-- Claim C2 amended: for every property on which `sanity_check`
returns without raising, every variable reference *occurring as the
parent of a field access* (`@name.field`, the only form
`external_references` collects, with the event's own alias discarded)
names an alias defined by an event that precedes it in the
alias-scope order — the terminator seeing only the activator's
aliases; the converse holds by contraposition.  Bare `@name` and
indexed `@name[i]` references are not checked at all. -/
theorem c2_amended : ∀ p, sanityCheck p = .ok () → refsWellScoped p = true := by
  intro p h
  obtain ⟨init, ha, hterm, hbr⟩ := sanityCheck_ok_cases h
  obtain ⟨hinit, hact⟩ := checkActivator_ok ha
  subst hinit
  unfold refsWellScoped
  simp only [Bool.and_eq_true]
  refine ⟨⟨?_, ?_⟩, ?_⟩
  · cases hao : p.scope.activator with
    | none => simp
    | some act => simp [hact act hao]
  · rcases hbr with ⟨h12, al, hb⟩ | ⟨h4, al, al2, hb, ht⟩ | ⟨h35, al, al2, ht, hb⟩
    · rw [if_pos h12]
      exact (checkBehaviour_ok hb).1
    · have hn12 : ¬(p.pattern.patternType = 2 ∨ p.pattern.patternType = 1) := by omega
      rw [if_neg hn12, if_pos h4]
      obtain ⟨hbrefs, hal⟩ := checkBehaviour_ok hb
      obtain ⟨tr, htr, htrefs, _⟩ := checkTrigger_ok ht
      subst hal
      rw [htr]
      simp only [Bool.and_eq_true]
      exact ⟨hbrefs, htrefs⟩
    · have hn12 : ¬(p.pattern.patternType = 2 ∨ p.pattern.patternType = 1) := by omega
      have hn4 : ¬p.pattern.patternType = 4 := by omega
      rw [if_neg hn12, if_neg hn4, if_pos h35]
      obtain ⟨tr, htr, htrefs, hal⟩ := checkTrigger_ok ht
      obtain ⟨hbrefs, _⟩ := checkBehaviour_ok hb
      subst hal
      rw [htr]
      simp only [Bool.and_eq_true]
      exact ⟨htrefs, hbrefs⟩
  · cases hq : p.scope.terminator with
    | none => simp
    | some q => simp [checkTerminator_ok hterm q hq]

/-- Witness for the amended C2: a property accepted by `sanity_check`
whose references are all well scoped. -/
theorem c2_witness : refsWellScoped c2prop = true :=
  c2_amended c2prop rfl

/-! ## Claim C8 -/

/-- Claim C8: the terminator's external references are checked against
the activator's aliases only — on success they all resolve to
activator aliases, and a terminator reference to an alias introduced
by the pattern's trigger or behaviour (but not by the activator) makes
`sanity_check` raise, even though that alias is defined inside the
property. -/
theorem c8_terminator_scope :
    ∀ p q, p.scope.terminator = some q →
      ((sanityCheck p = .ok () → (eventExtRefs q).all (· ∈ initialAliases p) = true)
       ∧ (∀ r, r ∈ eventExtRefs q → r ∈ patternAliases p → r ∉ initialAliases p →
           ∃ e, sanityCheck p = .error e)) := by
  intro p q hq
  have h1 : sanityCheck p = .ok () → (eventExtRefs q).all (· ∈ initialAliases p) = true := by
    intro h
    obtain ⟨init, ha, hterm, _⟩ := sanityCheck_ok_cases h
    obtain ⟨hinit, _⟩ := checkActivator_ok ha
    subst hinit
    exact checkTerminator_ok hterm q hq
  refine ⟨h1, ?_⟩
  intro r hr _hpat hinit
  cases hsc : sanityCheck p with
  | error e => exact ⟨e, rfl⟩
  | ok u =>
    cases u
    have hall := h1 hsc
    simp only [List.all_eq_true, decide_eq_true_eq] at hall
    exact absurd (hall r hr) hinit

/-- Witness for C8: the property `until /t {(x = @m.k)}: /a as m causes
/b` raises a sanity error because the terminator references the
trigger's alias `m`. -/
theorem c8_witness : ∃ e, sanityCheck c8prop = .error e :=
  (c8_terminator_scope c8prop c8terminator rfl).2 "m" (by decide) (by decide) (by decide)

/-! ## Claim C5 -/

theorem allNonempty_withTypes {e : HplExpr} {t : Nat} (ht : t ≠ 0)
    (h : allNonempty e = true) : allNonempty (e.withTypes t) = true := by
  cases e <;>
    simp only [HplExpr.withTypes, allNonempty, Bool.and_eq_true, decide_eq_true_eq] at h ⊢ <;>
    tauto

theorem castE_allNonempty {e e' : HplExpr} {t : Nat} (h : castE e t = .ok e')
    (he : allNonempty e = true) : allNonempty e' = true := by
  simp only [castE] at h
  split at h
  · cases h
  · rename_i hr
    cases h
    exact allNonempty_withTypes hr he

theorem castListE_allNonempty : ∀ {l l' : List HplExpr} {t : Nat},
    castListE t l = .ok l' → allNonemptyList l = true → allNonemptyList l' = true := by
  intro l
  induction l with
  | nil => intro l' t h hl; cases h; exact hl
  | cons e rest ih =>
      intro l' t h hl
      unfold castListE at h
      simp only [bind, Except.bind] at h
      cases hc : castE e t with
      | error err => rw [hc] at h; cases h
      | ok e1 =>
      simp only [hc] at h
      cases hr : castListE t rest with
      | error err => rw [hr] at h; cases h
      | ok rest1 =>
      simp only [hr] at h
      cases h
      simp only [allNonemptyList, Bool.and_eq_true] at hl ⊢
      exact ⟨castE_allNonempty hc hl.1, ih hr hl.2⟩

theorem narrowPass_vals : ∀ {ts vals : List Nat} {f fin : Nat},
    narrowPass f ts = .ok (vals, fin) → ∀ v ∈ vals, v ≠ 0 := by
  intro ts
  induction ts with
  | nil => intro vals f fin h; cases h; intro v hv; cases hv
  | cons t rest ih =>
      intro vals f fin h
      simp only [narrowPass] at h
      split at h
      · cases h
      · rename_i hr
        simp only [bind, Except.bind] at h
        cases hrec : narrowPass (t &&& f) rest with
        | error e => rw [hrec] at h; cases h
        | ok pr =>
        cases pr with
        | mk restVals fin2 =>
        simp only [hrec] at h
        cases h
        intro v hv
        cases hv with
        | head => exact hr
        | tail _ hm => exact ih hrec v hm

theorem consumeRoot_ok (k : String) (vals : List Nat) (e : HplExpr)
    (hv : ∀ v ∈ vals, v ≠ 0) (he : e.types ≠ 0) :
    (consumeRoot k vals e).1 ≠ 0 ∧ ∀ v ∈ (consumeRoot k vals e).2, v ≠ 0 := by
  unfold consumeRoot
  split
  · cases vals with
    | nil => exact ⟨he, hv⟩
    | cons v rest =>
        refine ⟨hv v (by simp), ?_⟩
        intro u hu
        exact hv u (List.mem_cons_of_mem v hu)
  · exact ⟨he, hv⟩

mutual
theorem writeTypesForKey_allNonempty : ∀ (k : String) (vals : List Nat) (e : HplExpr),
    (∀ v ∈ vals, v ≠ 0) → allNonempty e = true →
    allNonempty (writeTypesForKey k vals e).1 = true
      ∧ ∀ v ∈ (writeTypesForKey k vals e).2, v ≠ 0
  | k, vals, .literal t tok x, hv, he => by
      simp only [allNonempty, decide_eq_true_eq] at he
      cases hc : consumeRoot k vals (.literal t tok x) with
      | mk t' vals' =>
      have hok := consumeRoot_ok k vals (.literal t tok x) hv he
      rw [hc] at hok
      simp only [writeTypesForKey, hc]
      exact ⟨by simpa [allNonempty] using hok.1, hok.2⟩
  | k, vals, .thisMsg t rt, hv, he => by
      simp only [allNonempty, decide_eq_true_eq] at he
      cases hc : consumeRoot k vals (.thisMsg t rt) with
      | mk t' vals' =>
      have hok := consumeRoot_ok k vals (.thisMsg t rt) hv he
      rw [hc] at hok
      simp only [writeTypesForKey, hc]
      exact ⟨by simpa [allNonempty] using hok.1, hok.2⟩
  | k, vals, .varRef t tok d rt, hv, he => by
      simp only [allNonempty, decide_eq_true_eq] at he
      cases hc : consumeRoot k vals (.varRef t tok d rt) with
      | mk t' vals' =>
      have hok := consumeRoot_ok k vals (.varRef t tok d rt) hv he
      rw [hc] at hok
      simp only [writeTypesForKey, hc]
      exact ⟨by simpa [allNonempty] using hok.1, hok.2⟩
  | k, vals, .setLit t vs, hv, he => by
      simp only [allNonempty, Bool.and_eq_true, decide_eq_true_eq] at he
      obtain ⟨ht, hvs⟩ := he
      cases hc : consumeRoot k vals (.setLit t vs) with
      | mk t' vals' =>
      have hok := consumeRoot_ok k vals (.setLit t vs) hv ht
      rw [hc] at hok
      cases hw : writeTypesForKeyList k vals' vs with
      | mk vs' rest =>
      have h1 := writeTypesForKeyList_allNonempty k vals' vs hok.2 hvs
      rw [hw] at h1
      simp only [writeTypesForKey, hc, hw]
      refine ⟨?_, h1.2⟩
      simp only [allNonempty, Bool.and_eq_true, decide_eq_true_eq]
      exact ⟨hok.1, h1.1⟩
  | k, vals, .range t lo hi em ex, hv, he => by
      simp only [allNonempty, Bool.and_eq_true, decide_eq_true_eq] at he
      obtain ⟨⟨ht, hlo⟩, hhi⟩ := he
      cases hc : consumeRoot k vals (.range t lo hi em ex) with
      | mk t' vals' =>
      have hok := consumeRoot_ok k vals (.range t lo hi em ex) hv ht
      rw [hc] at hok
      cases hw1 : writeTypesForKey k vals' lo with
      | mk lo' r1 =>
      have h1 := writeTypesForKey_allNonempty k vals' lo hok.2 hlo
      rw [hw1] at h1
      cases hw2 : writeTypesForKey k r1 hi with
      | mk hi' r2 =>
      have h2 := writeTypesForKey_allNonempty k r1 hi h1.2 hhi
      rw [hw2] at h2
      simp only [writeTypesForKey, hc, hw1, hw2]
      refine ⟨?_, h2.2⟩
      simp only [allNonempty, Bool.and_eq_true, decide_eq_true_eq]
      exact ⟨⟨hok.1, h1.1⟩, h2.1⟩
  | k, vals, .fieldAccess t m f rt, hv, he => by
      simp only [allNonempty, Bool.and_eq_true, decide_eq_true_eq] at he
      obtain ⟨ht, hm⟩ := he
      cases hc : consumeRoot k vals (.fieldAccess t m f rt) with
      | mk t' vals' =>
      have hok := consumeRoot_ok k vals (.fieldAccess t m f rt) hv ht
      rw [hc] at hok
      cases hw1 : writeTypesForKey k vals' m with
      | mk m' r1 =>
      have h1 := writeTypesForKey_allNonempty k vals' m hok.2 hm
      rw [hw1] at h1
      simp only [writeTypesForKey, hc, hw1]
      refine ⟨?_, h1.2⟩
      simp only [allNonempty, Bool.and_eq_true, decide_eq_true_eq]
      exact ⟨hok.1, h1.1⟩
  | k, vals, .arrayAccess t a i rt, hv, he => by
      simp only [allNonempty, Bool.and_eq_true, decide_eq_true_eq] at he
      obtain ⟨⟨ht, ha⟩, hi⟩ := he
      cases hc : consumeRoot k vals (.arrayAccess t a i rt) with
      | mk t' vals' =>
      have hok := consumeRoot_ok k vals (.arrayAccess t a i rt) hv ht
      rw [hc] at hok
      cases hw1 : writeTypesForKey k vals' a with
      | mk a' r1 =>
      have h1 := writeTypesForKey_allNonempty k vals' a hok.2 ha
      rw [hw1] at h1
      cases hw2 : writeTypesForKey k r1 i with
      | mk i' r2 =>
      have h2 := writeTypesForKey_allNonempty k r1 i h1.2 hi
      rw [hw2] at h2
      simp only [writeTypesForKey, hc, hw1, hw2]
      refine ⟨?_, h2.2⟩
      simp only [allNonempty, Bool.and_eq_true, decide_eq_true_eq]
      exact ⟨⟨hok.1, h1.1⟩, h2.1⟩
  | k, vals, .unaryOp t op a, hv, he => by
      simp only [allNonempty, Bool.and_eq_true, decide_eq_true_eq] at he
      obtain ⟨ht, ha⟩ := he
      cases hc : consumeRoot k vals (.unaryOp t op a) with
      | mk t' vals' =>
      have hok := consumeRoot_ok k vals (.unaryOp t op a) hv ht
      rw [hc] at hok
      cases hw1 : writeTypesForKey k vals' a with
      | mk a' r1 =>
      have h1 := writeTypesForKey_allNonempty k vals' a hok.2 ha
      rw [hw1] at h1
      simp only [writeTypesForKey, hc, hw1]
      refine ⟨?_, h1.2⟩
      simp only [allNonempty, Bool.and_eq_true, decide_eq_true_eq]
      exact ⟨hok.1, h1.1⟩
  | k, vals, .binaryOp t op a b ifx c, hv, he => by
      simp only [allNonempty, Bool.and_eq_true, decide_eq_true_eq] at he
      obtain ⟨⟨ht, ha⟩, hb⟩ := he
      cases hc : consumeRoot k vals (.binaryOp t op a b ifx c) with
      | mk t' vals' =>
      have hok := consumeRoot_ok k vals (.binaryOp t op a b ifx c) hv ht
      rw [hc] at hok
      cases hw1 : writeTypesForKey k vals' a with
      | mk a' r1 =>
      have h1 := writeTypesForKey_allNonempty k vals' a hok.2 ha
      rw [hw1] at h1
      cases hw2 : writeTypesForKey k r1 b with
      | mk b' r2 =>
      have h2 := writeTypesForKey_allNonempty k r1 b h1.2 hb
      rw [hw2] at h2
      simp only [writeTypesForKey, hc, hw1, hw2]
      refine ⟨?_, h2.2⟩
      simp only [allNonempty, Bool.and_eq_true, decide_eq_true_eq]
      exact ⟨⟨hok.1, h1.1⟩, h2.1⟩
  | k, vals, .funCall t f args, hv, he => by
      simp only [allNonempty, Bool.and_eq_true, decide_eq_true_eq] at he
      obtain ⟨ht, hargs⟩ := he
      cases hc : consumeRoot k vals (.funCall t f args) with
      | mk t' vals' =>
      have hok := consumeRoot_ok k vals (.funCall t f args) hv ht
      rw [hc] at hok
      cases hw : writeTypesForKeyList k vals' args with
      | mk args' rest =>
      have h1 := writeTypesForKeyList_allNonempty k vals' args hok.2 hargs
      rw [hw] at h1
      simp only [writeTypesForKey, hc, hw]
      refine ⟨?_, h1.2⟩
      simp only [allNonempty, Bool.and_eq_true, decide_eq_true_eq]
      exact ⟨hok.1, h1.1⟩
  | k, vals, .quantifier t q v d c, hv, he => by
      simp only [allNonempty, Bool.and_eq_true, decide_eq_true_eq] at he
      obtain ⟨⟨ht, hd⟩, hcnd⟩ := he
      cases hc : consumeRoot k vals (.quantifier t q v d c) with
      | mk t' vals' =>
      have hok := consumeRoot_ok k vals (.quantifier t q v d c) hv ht
      rw [hc] at hok
      cases hw1 : writeTypesForKey k vals' d with
      | mk d' r1 =>
      have h1 := writeTypesForKey_allNonempty k vals' d hok.2 hd
      rw [hw1] at h1
      cases hw2 : writeTypesForKey k r1 c with
      | mk c' r2 =>
      have h2 := writeTypesForKey_allNonempty k r1 c h1.2 hcnd
      rw [hw2] at h2
      simp only [writeTypesForKey, hc, hw1, hw2]
      refine ⟨?_, h2.2⟩
      simp only [allNonempty, Bool.and_eq_true, decide_eq_true_eq]
      exact ⟨⟨hok.1, h1.1⟩, h2.1⟩
theorem writeTypesForKeyList_allNonempty : ∀ (k : String) (vals : List Nat) (l : List HplExpr),
    (∀ v ∈ vals, v ≠ 0) → allNonemptyList l = true →
    allNonemptyList (writeTypesForKeyList k vals l).1 = true
      ∧ ∀ v ∈ (writeTypesForKeyList k vals l).2, v ≠ 0
  | k, vals, [], hv, _ => by
      simp only [writeTypesForKeyList]
      exact ⟨rfl, hv⟩
  | k, vals, e :: rest, hv, hl => by
      simp only [allNonemptyList, Bool.and_eq_true] at hl
      obtain ⟨he, hrest⟩ := hl
      cases hw1 : writeTypesForKey k vals e with
      | mk e' r1 =>
      have h1 := writeTypesForKey_allNonempty k vals e hv he
      rw [hw1] at h1
      cases hw2 : writeTypesForKeyList k r1 rest with
      | mk rest' r2 =>
      have h2 := writeTypesForKeyList_allNonempty k r1 rest h1.2 hrest
      rw [hw2] at h2
      simp only [writeTypesForKeyList, hw1, hw2]
      refine ⟨?_, h2.2⟩
      simp only [allNonemptyList, Bool.and_eq_true]
      exact ⟨h1.1, h2.1⟩
end

theorem groupNarrow_allNonempty {e e' : HplExpr} {k : String}
    (h : groupNarrow e k = .ok e') (he : allNonempty e = true) :
    allNonempty e' = true := by
  unfold groupNarrow at h
  simp only [bind, Except.bind] at h
  cases hn1 : narrowPass T_ANY (typesForKey k e) with
  | error er => rw [hn1] at h; cases h
  | ok pr1 =>
  cases pr1 with
  | mk ts1 f1 =>
  simp only [hn1] at h
  cases hn2 : narrowPass f1 ts1.reverse with
  | error er => rw [hn2] at h; cases h
  | ok pr2 =>
  cases pr2 with
  | mk ts2 f2 =>
  simp only [hn2] at h
  cases h
  have hvals : ∀ v ∈ ts2.reverse, v ≠ 0 := by
    intro v hv
    exact narrowPass_vals hn2 v (List.mem_reverse.mp hv)
  exact (writeTypesForKey_allNonempty k ts2.reverse e hvals he).1

theorem groupNarrowAll_allNonempty : ∀ {ks : List String} {e e' : HplExpr},
    groupNarrowAll ks e = .ok e' → allNonempty e = true → allNonempty e' = true := by
  intro ks
  induction ks with
  | nil => intro e e' h he; cases h; exact he
  | cons k rest ih =>
      intro e e' h he
      unfold groupNarrowAll at h
      simp only [bind, Except.bind] at h
      cases hg : groupNarrow e k with
      | error er => rw [hg] at h; cases h
      | ok e1 =>
      simp only [hg] at h
      exact ih h (groupNarrow_allNonempty hg he)

theorem mkPredicate_allNonempty {e : HplExpr} {c : HplExpr}
    (h : mkPredicate e = .ok (.pred c)) (he : allNonempty e = true) :
    allNonempty c = true := by
  unfold mkPredicate at h
  split at h
  · cases h
  · simp only [bind, Except.bind] at h
    cases hg : groupNarrowAll (collectRefKeys e) e with
    | error er => rw [hg] at h; cases h
    | ok e1 =>
    simp only [hg] at h
    cases hs : someFieldRefs e1 (collectRefKeys e1) with
    | error er => rw [hs] at h; cases h
    | ok u =>
    cases u
    simp only [hs] at h
    cases h
    exact groupNarrowAll_allNonempty hg he

mutual
theorem bindVar_allNonempty : ∀ (v : String) (t : Nat) (sh : Bool) (e e' : HplExpr) (n : Nat),
    bindVar v t sh e = .ok (e', n) → allNonempty e = true → allNonempty e' = true
  | v, t, sh, .literal ty tok x, e', n, h, he => by
      cases h
      exact he
  | v, t, sh, .thisMsg ty rt, e', n, h, he => by
      cases h
      exact he
  | v, t, sh, .varRef ty tok d rt, e', n, h, he => by
      simp only [bindVar] at h
      split at h
      · split at h
        · cases h
        · split at h
          · cases h
          · rename_i hr
            cases h
            simpa [allNonempty] using hr
      · cases h
        exact he
  | v, t, sh, .setLit ty vs, e', n, h, he => by
      simp only [bindVar, bind, Except.bind] at h
      cases hb : bindVarList v t sh vs with
      | error er => rw [hb] at h; cases h
      | ok pr =>
      cases pr with
      | mk vs' n1 =>
      simp only [hb] at h
      cases h
      simp only [allNonempty, Bool.and_eq_true] at he ⊢
      exact ⟨he.1, bindVarList_allNonempty v t sh vs vs' _ hb he.2⟩
  | v, t, sh, .range ty lo hi em ex, e', n, h, he => by
      simp only [bindVar, bind, Except.bind] at h
      cases h1 : bindVar v t sh lo with
      | error er => rw [h1] at h; cases h
      | ok pr1 =>
      cases pr1 with
      | mk lo' n1 =>
      simp only [h1] at h
      cases h2 : bindVar v t sh hi with
      | error er => rw [h2] at h; cases h
      | ok pr2 =>
      cases pr2 with
      | mk hi' n2 =>
      simp only [h2] at h
      cases h
      simp only [allNonempty, Bool.and_eq_true] at he ⊢
      exact ⟨⟨he.1.1, bindVar_allNonempty v t sh lo lo' _ h1 he.1.2⟩,
             bindVar_allNonempty v t sh hi hi' _ h2 he.2⟩
  | v, t, sh, .fieldAccess ty m f rt, e', n, h, he => by
      simp only [bindVar, bind, Except.bind] at h
      cases h1 : bindVar v t sh m with
      | error er => rw [h1] at h; cases h
      | ok pr1 =>
      cases pr1 with
      | mk m' n1 =>
      simp only [h1] at h
      cases h
      simp only [allNonempty, Bool.and_eq_true] at he ⊢
      exact ⟨he.1, bindVar_allNonempty v t sh m m' _ h1 he.2⟩
  | v, t, sh, .arrayAccess ty a i rt, e', n, h, he => by
      simp only [bindVar, bind, Except.bind] at h
      cases h1 : bindVar v t sh a with
      | error er => rw [h1] at h; cases h
      | ok pr1 =>
      cases pr1 with
      | mk a' n1 =>
      simp only [h1] at h
      cases h2 : bindVar v t sh i with
      | error er => rw [h2] at h; cases h
      | ok pr2 =>
      cases pr2 with
      | mk i' n2 =>
      simp only [h2] at h
      cases h
      simp only [allNonempty, Bool.and_eq_true] at he ⊢
      exact ⟨⟨he.1.1, bindVar_allNonempty v t sh a a' _ h1 he.1.2⟩,
             bindVar_allNonempty v t sh i i' _ h2 he.2⟩
  | v, t, sh, .unaryOp ty op a, e', n, h, he => by
      simp only [bindVar, bind, Except.bind] at h
      cases h1 : bindVar v t sh a with
      | error er => rw [h1] at h; cases h
      | ok pr1 =>
      cases pr1 with
      | mk a' n1 =>
      simp only [h1] at h
      cases h
      simp only [allNonempty, Bool.and_eq_true] at he ⊢
      exact ⟨he.1, bindVar_allNonempty v t sh a a' _ h1 he.2⟩
  | v, t, sh, .binaryOp ty op a b ifx cm, e', n, h, he => by
      simp only [bindVar, bind, Except.bind] at h
      cases h1 : bindVar v t sh a with
      | error er => rw [h1] at h; cases h
      | ok pr1 =>
      cases pr1 with
      | mk a' n1 =>
      simp only [h1] at h
      cases h2 : bindVar v t sh b with
      | error er => rw [h2] at h; cases h
      | ok pr2 =>
      cases pr2 with
      | mk b' n2 =>
      simp only [h2] at h
      cases h
      simp only [allNonempty, Bool.and_eq_true] at he ⊢
      exact ⟨⟨he.1.1, bindVar_allNonempty v t sh a a' _ h1 he.1.2⟩,
             bindVar_allNonempty v t sh b b' _ h2 he.2⟩
  | v, t, sh, .funCall ty f args, e', n, h, he => by
      simp only [bindVar, bind, Except.bind] at h
      cases hb : bindVarList v t sh args with
      | error er => rw [hb] at h; cases h
      | ok pr =>
      cases pr with
      | mk args' n1 =>
      simp only [hb] at h
      cases h
      simp only [allNonempty, Bool.and_eq_true] at he ⊢
      exact ⟨he.1, bindVarList_allNonempty v t sh args args' _ hb he.2⟩
  | v, t, sh, .quantifier ty q qv d c, e', n, h, he => by
      simp only [bindVar, bind, Except.bind] at h
      cases h1 : bindVar v t sh d with
      | error er => rw [h1] at h; cases h
      | ok pr1 =>
      cases pr1 with
      | mk d' n1 =>
      simp only [h1] at h
      cases h2 : bindVar v t sh c with
      | error er => rw [h2] at h; cases h
      | ok pr2 =>
      cases pr2 with
      | mk c' n2 =>
      simp only [h2] at h
      cases h
      simp only [allNonempty, Bool.and_eq_true] at he ⊢
      exact ⟨⟨he.1.1, bindVar_allNonempty v t sh d d' _ h1 he.1.2⟩,
             bindVar_allNonempty v t sh c c' _ h2 he.2⟩
theorem bindVarList_allNonempty : ∀ (v : String) (t : Nat) (sh : Bool)
    (l l' : List HplExpr) (n : Nat),
    bindVarList v t sh l = .ok (l', n) → allNonemptyList l = true →
    allNonemptyList l' = true
  | v, t, sh, [], l', n, h, hl => by
      cases h
      exact hl
  | v, t, sh, e :: rest, l', n, h, hl => by
      simp only [bindVarList, bind, Except.bind] at h
      cases h1 : bindVar v t sh e with
      | error er => rw [h1] at h; cases h
      | ok pr1 =>
      cases pr1 with
      | mk e' n1 =>
      simp only [h1] at h
      cases h2 : bindVarList v t sh rest with
      | error er => rw [h2] at h; cases h
      | ok pr2 =>
      cases pr2 with
      | mk rest' n2 =>
      simp only [h2] at h
      cases h
      simp only [allNonemptyList, Bool.and_eq_true] at hl ⊢
      exact ⟨bindVar_allNonempty v t sh e e' _ h1 hl.1,
             bindVarList_allNonempty v t sh rest rest' _ h2 hl.2⟩
end

theorem withTypes_types (e : HplExpr) (t : Nat) : (e.withTypes t).types = t := by
  cases e <;> rfl

theorem allNonemptyList_of_forall : ∀ {vs : List HplExpr},
    (∀ v ∈ vs, allNonempty v = true) → allNonemptyList vs = true := by
  intro vs
  induction vs with
  | nil => intro _; rfl
  | cons e rest ih =>
      intro h
      simp only [allNonemptyList, Bool.and_eq_true]
      exact ⟨h e (by simp), ih (fun v hv => h v (List.mem_cons_of_mem e hv))⟩

theorem mkLiteral_allNonempty (tok : String) (v : PyVal) :
    allNonempty (mkLiteral tok v) = true := by
  cases v <;> simp only [mkLiteral, allNonempty] <;> rfl

theorem mkVarRef_allNonempty (tok : String) : allNonempty (mkVarRef tok) = true := by
  simp only [mkVarRef, allNonempty]
  rfl

theorem mkThisMessage_allNonempty : allNonempty mkThisMessage = true := by decide

theorem mkUnaryOp_allNonempty {op : String} {a e : HplExpr}
    (h : mkUnaryOp op a = .ok e) (ha : allNonempty a = true) :
    allNonempty e = true := by
  unfold mkUnaryOp at h
  cases hu : unOpTable op with
  | none => rw [hu] at h; cases h
  | some pr =>
  cases pr with
  | mk tin tout =>
  have htout : tout ≠ 0 := by
    unfold unOpTable at hu
    split at hu
    all_goals cases hu
    all_goals decide
  simp only [hu, bind, Except.bind] at h
  cases hc : castE a tin with
  | error er => rw [hc] at h; cases h
  | ok a' =>
  simp only [hc] at h
  cases h
  simp only [allNonempty, Bool.and_eq_true, decide_eq_true_eq]
  exact ⟨htout, castE_allNonempty hc ha⟩

theorem binOpTable_tout {op : String} {tin1 tin2 tout : Nat} {ifx comm : Bool}
    (h : binOpTable op = some (tin1, tin2, tout, ifx, comm)) : tout ≠ 0 := by
  unfold binOpTable at h
  split at h
  all_goals cases h
  all_goals decide

theorem mkBinaryOp_allNonempty {op : String} {a b e : HplExpr}
    (h : mkBinaryOp op a b = .ok e) (ha : allNonempty a = true)
    (hb : allNonempty b = true) : allNonempty e = true := by
  unfold mkBinaryOp at h
  cases ht : binOpTable op with
  | none => rw [ht] at h; cases h
  | some pr =>
  obtain ⟨tin1, tin2, tout, ifx, comm⟩ := pr
  have htout : tout ≠ 0 := binOpTable_tout ht
  simp only [ht, bind, Except.bind] at h
  cases hc1 : castE a tin1 with
  | error er => rw [hc1] at h; cases h
  | ok a' =>
  simp only [hc1] at h
  cases hc2 : castE b tin2 with
  | error er => rw [hc2] at h; cases h
  | ok b' =>
  simp only [hc2] at h
  cases h
  simp only [allNonempty, Bool.and_eq_true, decide_eq_true_eq]
  exact ⟨⟨htout, castE_allNonempty hc1 ha⟩, castE_allNonempty hc2 hb⟩

theorem mkSet_allNonempty {vs : List HplExpr} {e : HplExpr}
    (h : mkSet vs = .ok e) (hvs : allNonemptyList vs = true) :
    allNonempty e = true := by
  unfold mkSet at h
  simp only [bind, Except.bind] at h
  cases hc : castListE T_PRIM vs with
  | error er => rw [hc] at h; cases h
  | ok vs' =>
  simp only [hc] at h
  cases h
  simp only [allNonempty, Bool.and_eq_true, decide_eq_true_eq]
  exact ⟨by decide, castListE_allNonempty hc hvs⟩

theorem mkRange_allNonempty {lb ub e : HplExpr} {em ex : Bool}
    (h : mkRange lb ub em ex = .ok e) (hlb : allNonempty lb = true)
    (hub : allNonempty ub = true) : allNonempty e = true := by
  unfold mkRange at h
  simp only [bind, Except.bind] at h
  cases h1 : castE lb T_NUM with
  | error er => rw [h1] at h; cases h
  | ok lb' =>
  simp only [h1] at h
  cases h2 : castE ub T_NUM with
  | error er => rw [h2] at h; cases h
  | ok ub' =>
  simp only [h2] at h
  cases h
  simp only [allNonempty, Bool.and_eq_true, decide_eq_true_eq]
  exact ⟨⟨by decide, castE_allNonempty h1 hlb⟩, castE_allNonempty h2 hub⟩

theorem mkFieldAccess_allNonempty {m e : HplExpr} {f : String}
    (h : mkFieldAccess m f = .ok e) (hm : allNonempty m = true) :
    allNonempty e = true := by
  unfold mkFieldAccess at h
  simp only [bind, Except.bind] at h
  cases h1 : castE m T_MSG with
  | error er => rw [h1] at h; cases h
  | ok m' =>
  simp only [h1] at h
  cases h
  simp only [allNonempty, Bool.and_eq_true, decide_eq_true_eq]
  exact ⟨by decide, castE_allNonempty h1 hm⟩

theorem mkArrayAccess_allNonempty {a i e : HplExpr}
    (h : mkArrayAccess a i = .ok e) (ha : allNonempty a = true)
    (hi : allNonempty i = true) : allNonempty e = true := by
  unfold mkArrayAccess at h
  split at h
  · cases h
  · simp only [bind, Except.bind] at h
    cases h1 : castE a T_ARR with
    | error er => rw [h1] at h; cases h
    | ok a' =>
    simp only [h1] at h
    cases h2 : castE i T_NUM with
    | error er => rw [h2] at h; cases h
    | ok i' =>
    simp only [h2] at h
    cases h
    simp only [allNonempty, Bool.and_eq_true, decide_eq_true_eq]
    exact ⟨⟨by decide, castE_allNonempty h1 ha⟩, castE_allNonempty h2 hi⟩

theorem castListPairs_allNonempty : ∀ (ts : List Nat) (l l' : List HplExpr),
    commitOverload.castListPairs ts l = .ok l' → allNonemptyList l = true →
    allNonemptyList l' = true
  | [], [], l', h, hl => by cases h; exact hl
  | t :: ts, a :: args, l', h, hl => by
      simp only [commitOverload.castListPairs, bind, Except.bind] at h
      cases h1 : castE a t with
      | error er => rw [h1] at h; cases h
      | ok a' =>
      simp only [h1] at h
      cases h2 : commitOverload.castListPairs ts args with
      | error er => rw [h2] at h; cases h
      | ok rest' =>
      simp only [h2] at h
      cases h
      simp only [allNonemptyList, Bool.and_eq_true] at hl ⊢
      exact ⟨castE_allNonempty h1 hl.1, castListPairs_allNonempty ts args rest' h2 hl.2⟩
  | [], a :: args, l', h, hl => by cases h
  | t :: ts, [], l', h, hl => by cases h

theorem commitOverload_allNonempty {p : Params} {args args' : List HplExpr}
    (h : commitOverload p args = .ok args') (ha : allNonemptyList args = true) :
    allNonemptyList args' = true := by
  unfold commitOverload at h
  split at h
  · exact castListPairs_allNonempty _ _ _ h ha
  · exact castListPairs_allNonempty _ _ _ h ha

theorem tryOverloads_allNonempty : ∀ {f : String} {args args' : List HplExpr}
    {ps : List Params}, tryOverloads f args ps = .ok args' →
    allNonemptyList args = true → allNonemptyList args' = true := by
  intro f args args' ps
  induction ps with
  | nil => intro h _; cases h
  | cons p rest ih =>
      intro h ha
      unfold tryOverloads at h
      split at h
      · exact commitOverload_allNonempty h ha
      · exact ih h ha

theorem builtinTable_output_ne {f : String} {sig : FunctionSig}
    (h : builtinTable f = some sig) : sig.output ≠ 0 := by
  unfold builtinTable at h
  split at h
  all_goals cases h
  all_goals decide

theorem mkFunctionCall_allNonempty {f : String} {args : List HplExpr} {e : HplExpr}
    (h : mkFunctionCall f args = .ok e) (ha : allNonemptyList args = true) :
    allNonempty e = true := by
  unfold mkFunctionCall at h
  cases hf : builtinTable f with
  | none => rw [hf] at h; cases h
  | some sig =>
  simp only [hf, bind, Except.bind] at h
  cases ht : tryOverloads f args sig.overloads with
  | error er => rw [ht] at h; cases h
  | ok args' =>
  simp only [ht] at h
  cases h
  simp only [allNonempty, Bool.and_eq_true, decide_eq_true_eq]
  exact ⟨builtinTable_output_ne hf, tryOverloads_allNonempty ht ha⟩

theorem mkQuantifier_allNonempty {qt v : String} {dom p e : HplExpr} {sh : Bool}
    (h : mkQuantifier qt v dom p sh = .ok e) (hd : allNonempty dom = true)
    (hp : allNonempty p = true) : allNonempty e = true := by
  unfold mkQuantifier at h
  simp only [bind, Except.bind] at h
  cases h1 : castE dom T_COMP with
  | error er => rw [h1] at h; cases h
  | ok dom' =>
  simp only [h1] at h
  cases h2 : castE p T_BOOL with
  | error er => rw [h2] at h; cases h
  | ok p' =>
  simp only [h2] at h
  cases h3 : domainVarsCheck v dom' with
  | error er => rw [h3] at h; cases h
  | ok u =>
  cases u
  simp only [h3] at h
  cases h4 : bindVar v (if dom'.isValue && (dom'.isSet || dom'.isRange)
      then subtypesOf dom' else T_PRIM) sh p' with
  | error er => rw [h4] at h; cases h
  | ok pr =>
  cases pr with
  | mk p'' used =>
  simp only [h4] at h
  split at h
  · cases h
  · cases h
    simp only [allNonempty, Bool.and_eq_true, decide_eq_true_eq]
    exact ⟨⟨by decide, castE_allNonempty h1 hd⟩,
           bindVar_allNonempty _ _ _ _ _ _ h4 (castE_allNonempty h2 hp)⟩

/-- Invariant I1 for every expression reachable through the
constructor pipeline. -/
theorem built_allNonempty : ∀ {e : HplExpr}, Built e → allNonempty e = true := by
  intro e hb
  induction hb with
  | lit tok v => exact mkLiteral_allNonempty tok v
  | var tok => exact mkVarRef_allNonempty tok
  | thisM => exact mkThisMessage_allNonempty
  | un op a e _ h ih => exact mkUnaryOp_allNonempty h ih
  | bin op a b e _ _ h iha ihb => exact mkBinaryOp_allNonempty h iha ihb
  | set vs e _ h ih => exact mkSet_allNonempty h (allNonemptyList_of_forall ih)
  | ran lb ub em ex e _ _ h ih1 ih2 => exact mkRange_allNonempty h ih1 ih2
  | fld m f e _ h ih => exact mkFieldAccess_allNonempty h ih
  | arr a i e _ _ h ih1 ih2 => exact mkArrayAccess_allNonempty h ih1 ih2
  | fn f args e _ h ih => exact mkFunctionCall_allNonempty h (allNonemptyList_of_forall ih)
  | qtf qt v dom p sh e _ _ h ih1 ih2 => exact mkQuantifier_allNonempty h ih1 ih2
  | prd c c' _ h ih => exact mkPredicate_allNonempty h ih

theorem lor_ne_zero_left {x t : Nat} (h : x ≠ 0) : x ||| t ≠ 0 := by
  intro hc
  apply h
  apply Nat.zero_of_testBit_eq_false
  intro i
  have hb := congrArg (fun n => n.testBit i) hc
  simp only [Nat.testBit_lor, Nat.zero_testBit, Bool.or_eq_false_iff] at hb
  exact hb.1

/-- Claim C5 as stated is false: a failing `rem_type` performs the
removal before raising, leaving the node's type set empty — removing
`Item` from a fresh variable reference raises the type error with the
node's type set at 0. -/
theorem c5_counterexample :
    remTypeS (mkVarRef "@x") T_ITEM
      = (.varRef 0 "@x" false none, some (.hplType "no types left: @x"))
    ∧ ((remTypeS (mkVarRef "@x") T_ITEM).1).types = 0 :=
  ⟨rfl, rfl⟩

/-- Claim C5 amended: every expression produced by the constructor
pipeline has non-empty type sets at every node; `cast` preserves
non-emptiness whether it succeeds or fails (the intersection is checked
before assignment); `add_type` only widens; a *successful* `rem_type`
leaves a non-empty set — but a failing `rem_type` assigns the emptied
set before raising, violating the invariant at that node. -/
theorem c5_amended :
    (∀ e : HplExpr, Built e → allNonempty e = true)
    ∧ (∀ (e : HplExpr) (t : Nat), e.types ≠ 0 → ((castS e t).1).types ≠ 0)
    ∧ (∀ (e : HplExpr) (t : Nat), e.types ≠ 0 → (addTypeS e t).types ≠ 0)
    ∧ (∀ (e : HplExpr) (t : Nat), (remTypeS e t).2 = none →
        ((remTypeS e t).1).types ≠ 0) := by
  refine ⟨fun e hb => built_allNonempty hb, ?_, ?_, ?_⟩
  · intro e t h
    simp only [castS]
    split
    · exact h
    · rename_i hr
      rw [withTypes_types]
      exact hr
  · intro e t h
    unfold addTypeS
    rw [withTypes_types]
    exact lor_ne_zero_left h
  · intro e t h
    by_cases hc : (e.withTypes (bitRemove e.types t)).types = 0
    · simp only [remTypeS] at h
      rw [if_pos hc] at h
      cases h
    · simp only [remTypeS]
      rw [if_neg hc]
      exact hc

/-- Witness for the amended C5 at concrete inputs. -/
theorem c5_witness :
    allNonempty c1binop = true
    ∧ ((castS (mkVarRef "@x") T_NUM).1).types ≠ 0
    ∧ (addTypeS (mkVarRef "@x") T_NUM).types ≠ 0
    ∧ ((remTypeS (mkVarRef "@x") T_NUM).1).types ≠ 0 :=
  ⟨c5_amended.1 c1binop
      (Built.bin "=" (mkVarRef "@x") (mkLiteral "5" (.int 5)) c1binop
        (Built.var "@x") (Built.lit "5" (.int 5)) rfl),
   c5_amended.2.1 (mkVarRef "@x") T_NUM (by decide),
   c5_amended.2.2.1 (mkVarRef "@x") T_NUM (by decide),
   c5_amended.2.2.2 (mkVarRef "@x") T_NUM rfl⟩

/-! ## C7: idempotence of `refine_types` -/

theorem castMask_idem {ty m ty' : Nat} (h : castMask ty m = .ok ty') :
    castMask ty' m = .ok ty' := by
  simp only [castMask] at h
  split at h
  · cases h
  · rename_i hr
    cases h
    simp only [castMask, land_mask_idem]
    rw [if_neg hr]

theorem refineBase_idem {rt : RosType} {al : List (String × RosType)}
    {e e' : HplExpr} {t : RosType} (h : refineBase rt al e = .ok (e', t)) :
    refineBase rt al e' = .ok (e', t) := by
  cases e with
  | thisMsg ty x =>
      simp [refineBase] at h
      split at h
      · rename_i hm
        cases h
        simp only [refineBase]
        rw [if_pos hm]
      · cases h
  | varRef ty tok d x =>
      simp [refineBase] at h
      cases hl : lookupAssoc al (tok.drop 1) with
      | none => rw [hl] at h; cases h
      | some u =>
      simp only [hl] at h
      split at h
      · rename_i hm
        cases h
        simp only [refineBase, hl]
        rw [if_pos hm]
      · cases h
  | literal ty tok v => simp [refineBase] at h
  | setLit ty vs => simp [refineBase] at h
  | range ty lo hi em ex => simp [refineBase] at h
  | fieldAccess ty m f x => simp [refineBase] at h
  | arrayAccess ty a i x => simp [refineBase] at h
  | unaryOp ty op a => simp [refineBase] at h
  | binaryOp ty op a b ifx c => simp [refineBase] at h
  | funCall ty f args => simp [refineBase] at h
  | quantifier ty q v d c => simp [refineBase] at h

theorem refineBase_not_accessor {rt : RosType} {al : List (String × RosType)}
    {e e' : HplExpr} {t : RosType} (h : refineBase rt al e = .ok (e', t)) :
    e'.isAccessor = false := by
  cases e with
  | thisMsg ty x =>
      simp [refineBase] at h
      split at h
      · cases h; rfl
      · cases h
  | varRef ty tok d x =>
      simp [refineBase] at h
      cases hl : lookupAssoc al (tok.drop 1) with
      | none => rw [hl] at h; cases h
      | some u =>
      simp only [hl] at h
      split at h
      · cases h; rfl
      · cases h
  | literal ty tok v => simp [refineBase] at h
  | setLit ty vs => simp [refineBase] at h
  | range ty lo hi em ex => simp [refineBase] at h
  | fieldAccess ty m f x => simp [refineBase] at h
  | arrayAccess ty a i x => simp [refineBase] at h
  | unaryOp ty op a => simp [refineBase] at h
  | binaryOp ty op a b ifx c => simp [refineBase] at h
  | funCall ty f args => simp [refineBase] at h
  | quantifier ty q v d c => simp [refineBase] at h

theorem refineChain_accessor : ∀ {rt : RosType} {al : List (String × RosType)}
    {e e' : HplExpr} {t : RosType}, refineChain rt al e = .ok (e', t) →
    e'.isAccessor = true := by
  intro rt al e e' t h
  cases e with
  | fieldAccess ty m f x =>
      simp only [refineChain, bind, Except.bind] at h
      split at h
      case isTrue =>
        cases hin : refineChain rt al m with
        | error er => rw [hin] at h; cases h
        | ok pr =>
        cases pr with
        | mk m' t0 =>
        simp only [hin] at h
        cases hfs : fieldStep t0 f with
        | error er => rw [hfs] at h; cases h
        | ok t' =>
        simp only [hfs] at h
        cases hcm : castMask ty (maskForRos t') with
        | error er => rw [hcm] at h; cases h
        | ok ty' =>
        simp only [hcm] at h
        cases h
        rfl
      case isFalse =>
        cases hin : refineBase rt al m with
        | error er => rw [hin] at h; cases h
        | ok pr =>
        cases pr with
        | mk m' t0 =>
        simp only [hin] at h
        cases hfs : fieldStep t0 f with
        | error er => rw [hfs] at h; cases h
        | ok t' =>
        simp only [hfs] at h
        cases hcm : castMask ty (maskForRos t') with
        | error er => rw [hcm] at h; cases h
        | ok ty' =>
        simp only [hcm] at h
        cases h
        rfl
  | arrayAccess ty a i x =>
      simp only [refineChain, bind, Except.bind] at h
      split at h
      case isTrue =>
        cases hin : refineChain rt al a with
        | error er => rw [hin] at h; cases h
        | ok pr =>
        cases pr with
        | mk a' t0 =>
        simp only [hin] at h
        split at h
        · cases h
        · cases hidx : indexCheck t0 i with
          | error er => rw [hidx] at h; cases h
          | ok u =>
          cases u
          simp only [hidx] at h
          cases hcm : castMask ty (maskForRos t0.typeToken) with
          | error er => rw [hcm] at h; cases h
          | ok ty' =>
          simp only [hcm] at h
          cases h
          rfl
      case isFalse =>
        cases hin : refineBase rt al a with
        | error er => rw [hin] at h; cases h
        | ok pr =>
        cases pr with
        | mk a' t0 =>
        simp only [hin] at h
        split at h
        · cases h
        · cases hidx : indexCheck t0 i with
          | error er => rw [hidx] at h; cases h
          | ok u =>
          cases u
          simp only [hidx] at h
          cases hcm : castMask ty (maskForRos t0.typeToken) with
          | error er => rw [hcm] at h; cases h
          | ok ty' =>
          simp only [hcm] at h
          cases h
          rfl
  | literal ty tok v => simp [refineChain] at h
  | thisMsg ty x => simp [refineChain] at h
  | varRef ty tok d x => simp [refineChain] at h
  | setLit ty vs => simp [refineChain] at h
  | range ty lo hi em ex => simp [refineChain] at h
  | unaryOp ty op a => simp [refineChain] at h
  | binaryOp ty op a b ifx c => simp [refineChain] at h
  | funCall ty f args => simp [refineChain] at h
  | quantifier ty q v d c => simp [refineChain] at h

theorem refineChain_idem : ∀ (rt : RosType) (al : List (String × RosType))
    (e e' : HplExpr) (t : RosType), refineChain rt al e = .ok (e', t) →
    refineChain rt al e' = .ok (e', t)
  | rt, al, .fieldAccess ty m f x, e', t, h => by
      simp only [refineChain, bind, Except.bind] at h
      by_cases hacc : m.isAccessor = true
      · rw [if_pos hacc] at h
        cases hin : refineChain rt al m with
        | error er => rw [hin] at h; cases h
        | ok pr =>
        cases pr with
        | mk m' t0 =>
        simp only [hin] at h
        cases hfs : fieldStep t0 f with
        | error er => rw [hfs] at h; cases h
        | ok t' =>
        simp only [hfs] at h
        cases hcm : castMask ty (maskForRos t') with
        | error er => rw [hcm] at h; cases h
        | ok ty' =>
        simp only [hcm] at h
        cases h
        simp only [refineChain, bind, Except.bind]
        rw [if_pos (refineChain_accessor hin)]
        rw [refineChain_idem rt al m m' t0 hin]
        simp only [hfs, castMask_idem hcm]
      · rw [if_neg hacc] at h
        cases hin : refineBase rt al m with
        | error er => rw [hin] at h; cases h
        | ok pr =>
        cases pr with
        | mk m' t0 =>
        simp only [hin] at h
        cases hfs : fieldStep t0 f with
        | error er => rw [hfs] at h; cases h
        | ok t' =>
        simp only [hfs] at h
        cases hcm : castMask ty (maskForRos t') with
        | error er => rw [hcm] at h; cases h
        | ok ty' =>
        simp only [hcm] at h
        cases h
        simp only [refineChain, bind, Except.bind]
        rw [if_neg (by rw [refineBase_not_accessor hin]; exact Bool.false_ne_true)]
        rw [refineBase_idem hin]
        simp only [hfs, castMask_idem hcm]
  | rt, al, .arrayAccess ty a i x, e', t, h => by
      simp only [refineChain, bind, Except.bind] at h
      by_cases hacc : a.isAccessor = true
      · rw [if_pos hacc] at h
        cases hin : refineChain rt al a with
        | error er => rw [hin] at h; cases h
        | ok pr =>
        cases pr with
        | mk a' t0 =>
        simp only [hin] at h
        split at h
        · cases h
        · rename_i harr
          cases hidx : indexCheck t0 i with
          | error er => rw [hidx] at h; cases h
          | ok u =>
          cases u
          simp only [hidx] at h
          cases hcm : castMask ty (maskForRos t0.typeToken) with
          | error er => rw [hcm] at h; cases h
          | ok ty' =>
          simp only [hcm] at h
          cases h
          simp only [refineChain, bind, Except.bind]
          rw [if_pos (refineChain_accessor hin)]
          rw [refineChain_idem rt al a a' t0 hin]
          simp only [if_neg harr, hidx, castMask_idem hcm]
      · rw [if_neg hacc] at h
        cases hin : refineBase rt al a with
        | error er => rw [hin] at h; cases h
        | ok pr =>
        cases pr with
        | mk a' t0 =>
        simp only [hin] at h
        split at h
        · cases h
        · rename_i harr
          cases hidx : indexCheck t0 i with
          | error er => rw [hidx] at h; cases h
          | ok u =>
          cases u
          simp only [hidx] at h
          cases hcm : castMask ty (maskForRos t0.typeToken) with
          | error er => rw [hcm] at h; cases h
          | ok ty' =>
          simp only [hcm] at h
          cases h
          simp only [refineChain, bind, Except.bind]
          rw [if_neg (by rw [refineBase_not_accessor hin]; exact Bool.false_ne_true)]
          rw [refineBase_idem hin]
          simp only [if_neg harr, hidx, castMask_idem hcm]
  | rt, al, .literal ty tok v, e', t, h => by simp [refineChain] at h
  | rt, al, .thisMsg ty x, e', t, h => by simp [refineChain] at h
  | rt, al, .varRef ty tok d x, e', t, h => by simp [refineChain] at h
  | rt, al, .setLit ty vs, e', t, h => by simp [refineChain] at h
  | rt, al, .range ty lo hi em ex, e', t, h => by simp [refineChain] at h
  | rt, al, .unaryOp ty op a, e', t, h => by simp [refineChain] at h
  | rt, al, .binaryOp ty op a b ifx c, e', t, h => by simp [refineChain] at h
  | rt, al, .funCall ty f args, e', t, h => by simp [refineChain] at h
  | rt, al, .quantifier ty q v d c, e', t, h => by simp [refineChain] at h

theorem refineChain_walk : ∀ {rt : RosType} {al : List (String × RosType)}
    {e e' : HplExpr} {t : RosType}, refineChain rt al e = .ok (e', t) →
    refineWalk rt al e' = .ok e' := by
  intro rt al e e' t h
  cases e with
  | fieldAccess ty m f x =>
      have hidem := refineChain_idem rt al (.fieldAccess ty m f x) e' t h
      simp only [refineChain, bind, Except.bind] at h
      split at h
      case isTrue =>
        cases hin : refineChain rt al m with
        | error er => rw [hin] at h; cases h
        | ok pr =>
        cases pr with
        | mk m' t0 =>
        simp only [hin] at h
        cases hfs : fieldStep t0 f with
        | error er => rw [hfs] at h; cases h
        | ok t' =>
        simp only [hfs] at h
        cases hcm : castMask ty (maskForRos t') with
        | error er => rw [hcm] at h; cases h
        | ok ty' =>
        simp only [hcm] at h
        cases h
        simp only [refineWalk, bind, Except.bind, hidem]
      case isFalse =>
        cases hin : refineBase rt al m with
        | error er => rw [hin] at h; cases h
        | ok pr =>
        cases pr with
        | mk m' t0 =>
        simp only [hin] at h
        cases hfs : fieldStep t0 f with
        | error er => rw [hfs] at h; cases h
        | ok t' =>
        simp only [hfs] at h
        cases hcm : castMask ty (maskForRos t') with
        | error er => rw [hcm] at h; cases h
        | ok ty' =>
        simp only [hcm] at h
        cases h
        simp only [refineWalk, bind, Except.bind, hidem]
  | arrayAccess ty a i x =>
      have hidem := refineChain_idem rt al (.arrayAccess ty a i x) e' t h
      simp only [refineChain, bind, Except.bind] at h
      split at h
      case isTrue =>
        cases hin : refineChain rt al a with
        | error er => rw [hin] at h; cases h
        | ok pr =>
        cases pr with
        | mk a' t0 =>
        simp only [hin] at h
        split at h
        · cases h
        · cases hidx : indexCheck t0 i with
          | error er => rw [hidx] at h; cases h
          | ok u =>
          cases u
          simp only [hidx] at h
          cases hcm : castMask ty (maskForRos t0.typeToken) with
          | error er => rw [hcm] at h; cases h
          | ok ty' =>
          simp only [hcm] at h
          cases h
          simp only [refineWalk, bind, Except.bind, hidem]
      case isFalse =>
        cases hin : refineBase rt al a with
        | error er => rw [hin] at h; cases h
        | ok pr =>
        cases pr with
        | mk a' t0 =>
        simp only [hin] at h
        split at h
        · cases h
        · cases hidx : indexCheck t0 i with
          | error er => rw [hidx] at h; cases h
          | ok u =>
          cases u
          simp only [hidx] at h
          cases hcm : castMask ty (maskForRos t0.typeToken) with
          | error er => rw [hcm] at h; cases h
          | ok ty' =>
          simp only [hcm] at h
          cases h
          simp only [refineWalk, bind, Except.bind, hidem]
  | literal ty tok v => simp [refineChain] at h
  | thisMsg ty x => simp [refineChain] at h
  | varRef ty tok d x => simp [refineChain] at h
  | setLit ty vs => simp [refineChain] at h
  | range ty lo hi em ex => simp [refineChain] at h
  | unaryOp ty op a => simp [refineChain] at h
  | binaryOp ty op a b ifx c => simp [refineChain] at h
  | funCall ty f args => simp [refineChain] at h
  | quantifier ty q v d c => simp [refineChain] at h

mutual
theorem refineWalk_idem : ∀ (rt : RosType) (al : List (String × RosType))
    (e e' : HplExpr), refineWalk rt al e = .ok e' → refineWalk rt al e' = .ok e'
  | rt, al, .fieldAccess ty m f x, e', h => by
      simp only [refineWalk, bind, Except.bind] at h
      cases hc : refineChain rt al (.fieldAccess ty m f x) with
      | error er => rw [hc] at h; cases h
      | ok pr =>
      cases pr with
      | mk e0 t =>
      simp only [hc] at h
      cases h
      exact refineChain_walk hc
  | rt, al, .arrayAccess ty a i x, e', h => by
      simp only [refineWalk, bind, Except.bind] at h
      cases hc : refineChain rt al (.arrayAccess ty a i x) with
      | error er => rw [hc] at h; cases h
      | ok pr =>
      cases pr with
      | mk e0 t =>
      simp only [hc] at h
      cases h
      exact refineChain_walk hc
  | rt, al, .literal ty tok v, e', h => by
      simp only [refineWalk] at h; cases h; rfl
  | rt, al, .thisMsg ty x, e', h => by
      simp only [refineWalk] at h; cases h; rfl
  | rt, al, .varRef ty tok d x, e', h => by
      simp only [refineWalk] at h; cases h; rfl
  | rt, al, .setLit ty vs, e', h => by
      simp only [refineWalk, bind, Except.bind] at h
      cases hl : refineWalkList rt al vs with
      | error er => rw [hl] at h; cases h
      | ok vs' =>
      simp only [hl] at h
      cases h
      simp only [refineWalk, bind, Except.bind,
        refineWalkList_idem rt al vs vs' hl]
  | rt, al, .range ty lo hi em ex, e', h => by
      simp only [refineWalk, bind, Except.bind] at h
      cases hlo : refineWalk rt al lo with
      | error er => rw [hlo] at h; cases h
      | ok lo' =>
      simp only [hlo] at h
      cases hhi : refineWalk rt al hi with
      | error er => rw [hhi] at h; cases h
      | ok hi' =>
      simp only [hhi] at h
      cases h
      simp only [refineWalk, bind, Except.bind,
        refineWalk_idem rt al lo lo' hlo, refineWalk_idem rt al hi hi' hhi]
  | rt, al, .unaryOp ty op a, e', h => by
      simp only [refineWalk, bind, Except.bind] at h
      cases ha : refineWalk rt al a with
      | error er => rw [ha] at h; cases h
      | ok a' =>
      simp only [ha] at h
      cases h
      simp only [refineWalk, bind, Except.bind, refineWalk_idem rt al a a' ha]
  | rt, al, .binaryOp ty op a b ifx c, e', h => by
      simp only [refineWalk, bind, Except.bind] at h
      cases ha : refineWalk rt al a with
      | error er => rw [ha] at h; cases h
      | ok a' =>
      simp only [ha] at h
      cases hb : refineWalk rt al b with
      | error er => rw [hb] at h; cases h
      | ok b' =>
      simp only [hb] at h
      cases h
      simp only [refineWalk, bind, Except.bind,
        refineWalk_idem rt al a a' ha, refineWalk_idem rt al b b' hb]
  | rt, al, .funCall ty f args, e', h => by
      simp only [refineWalk, bind, Except.bind] at h
      cases hl : refineWalkList rt al args with
      | error er => rw [hl] at h; cases h
      | ok args' =>
      simp only [hl] at h
      cases h
      simp only [refineWalk, bind, Except.bind,
        refineWalkList_idem rt al args args' hl]
  | rt, al, .quantifier ty q v d c, e', h => by
      simp only [refineWalk, bind, Except.bind] at h
      cases hd : refineWalk rt al d with
      | error er => rw [hd] at h; cases h
      | ok d' =>
      simp only [hd] at h
      cases hc : refineWalk rt al c with
      | error er => rw [hc] at h; cases h
      | ok c' =>
      simp only [hc] at h
      cases h
      simp only [refineWalk, bind, Except.bind,
        refineWalk_idem rt al d d' hd, refineWalk_idem rt al c c' hc]
theorem refineWalkList_idem : ∀ (rt : RosType) (al : List (String × RosType))
    (l l' : List HplExpr), refineWalkList rt al l = .ok l' →
    refineWalkList rt al l' = .ok l'
  | rt, al, [], l', h => by
      simp only [refineWalkList] at h; cases h; rfl
  | rt, al, e :: rest, l', h => by
      simp only [refineWalkList, bind, Except.bind] at h
      cases he : refineWalk rt al e with
      | error er => rw [he] at h; cases h
      | ok e' =>
      simp only [he] at h
      cases hr : refineWalkList rt al rest with
      | error er => rw [hr] at h; cases h
      | ok rest' =>
      simp only [hr] at h
      cases h
      simp only [refineWalkList, bind, Except.bind,
        refineWalk_idem rt al e e' he, refineWalkList_idem rt al rest rest' hr]
end

theorem predRefine_idem {rt : RosType} {al : List (String × RosType)}
    {p p' : HplPred} (h : predRefine rt al p = .ok p') :
    predRefine rt al p' = .ok p' := by
  cases p with
  | pred c =>
      simp only [predRefine, bind, Except.bind] at h
      cases hc : refineWalk rt al c with
      | error er => rw [hc] at h; cases h
      | ok c' =>
      simp only [hc] at h
      cases h
      simp only [predRefine, bind, Except.bind, refineWalk_idem rt al c c' hc]
  | vacuous => simp only [predRefine] at h; cases h; rfl
  | contradiction => simp only [predRefine] at h; cases h; rfl

theorem simpleRefine_idem : ∀ (rostypes al : List (String × RosType))
    (e e' : HplEvent), simpleRefine rostypes al e = .ok e' →
    simpleRefine rostypes al e' = .ok e'
  | rostypes, al, .simple et pr topic a (some m), e', h => by
      simp only [simpleRefine, bind, Except.bind] at h
      cases hl : lookupAssoc rostypes topic with
      | none => rw [hl] at h; cases h
      | some rt =>
      simp only [hl] at h
      by_cases hre : rosEq rt m = true
      · simp only [if_pos hre] at h
        cases h
        simp only [simpleRefine, bind, Except.bind, hl, if_pos hre]
      · simp only [if_neg hre] at h
        cases h
  | rostypes, al, .simple et pr topic a none, e', h => by
      simp only [simpleRefine, bind, Except.bind] at h
      cases hl : lookupAssoc rostypes topic with
      | none => rw [hl] at h; cases h
      | some rt =>
      simp only [hl] at h
      cases hp : predRefine rt al pr with
      | error er => rw [hp] at h; cases h
      | ok pr' =>
      simp only [hp] at h
      cases h
      simp only [simpleRefine, bind, Except.bind, hl, predRefine_idem hp]
  | rostypes, al, .disjunction e1 e2, e', h => by
      simp only [simpleRefine, bind, Except.bind] at h
      cases h1 : simpleRefine rostypes al e1 with
      | error er => rw [h1] at h; cases h
      | ok e1' =>
      simp only [h1] at h
      cases h2 : simpleRefine rostypes al e2 with
      | error er => rw [h2] at h; cases h
      | ok e2' =>
      simp only [h2] at h
      cases h
      simp only [simpleRefine, bind, Except.bind,
        simpleRefine_idem rostypes al e1 e1' h1,
        simpleRefine_idem rostypes al e2 e2' h2]

theorem refineEventOpt_idem {rostypes al : List (String × RosType)}
    {oe oe' : Option HplEvent} (h : refineEventOpt rostypes al oe = .ok oe') :
    refineEventOpt rostypes al oe' = .ok oe' := by
  cases oe with
  | none => simp only [refineEventOpt] at h; cases h; rfl
  | some e =>
      simp only [refineEventOpt, bind, Except.bind] at h
      cases he : simpleRefine rostypes al e with
      | error er => rw [he] at h; cases h
      | ok e1 =>
      simp only [he] at h
      cases h
      simp only [refineEventOpt, bind, Except.bind,
        simpleRefine_idem rostypes al e e1 he]

/-- Claim C7: `HplProperty.refine_types` is idempotent.  Whenever a
first refinement of a property against a topic schema and alias map
succeeds, refining its output again with the same inputs succeeds and
returns that output unchanged: every accessor chain re-walks to the
same schema types, each node's narrowed bitmask is a fixed point of
the cast (`castMask_idem`), and every recorded `ros_type` annotation
is recomputed identically. -/
theorem c7_refine_idempotent (rostypes al : List (String × RosType))
    (p p' : HplProperty) (h : propertyRefineTypes rostypes al p = .ok p') :
    propertyRefineTypes rostypes al p' = .ok p' := by
  simp only [propertyRefineTypes, bind, Except.bind] at h
  cases ha : refineEventOpt rostypes al p.scope.activator with
  | error er => rw [ha] at h; cases h
  | ok act' =>
  simp only [ha] at h
  cases hb : simpleRefine rostypes al p.pattern.behaviour with
  | error er => rw [hb] at h; cases h
  | ok beh' =>
  simp only [hb] at h
  cases ht : refineEventOpt rostypes al p.pattern.trigger with
  | error er => rw [ht] at h; cases h
  | ok trig' =>
  simp only [ht] at h
  cases hm : refineEventOpt rostypes al p.scope.terminator with
  | error er => rw [hm] at h; cases h
  | ok term' =>
  simp only [hm] at h
  cases h
  simp only [propertyRefineTypes, bind, Except.bind,
    refineEventOpt_idem ha, simpleRefine_idem rostypes al _ _ hb,
    refineEventOpt_idem ht, refineEventOpt_idem hm]

/-- Witness for C7: the property `globally: no /odom {(x > 0)}` over
the schema `/odom {x: Number}`, refined twice. -/
theorem c7_witness : propertyRefineTypes c7schema [] c7refined = .ok c7refined :=
  c7_refine_idempotent c7schema [] c7prop c7refined (by rfl)

end Hpl
